import Mathlib

/-!
# Verification of the grafbase operation-execution core

Shallow embedding of the parts of the repository covered by the frozen
claims:

* `common/dynamodb/src/paginated.rs` — the pagination cursor and the
  `query_node_edges` accumulation loop;
* `common/dynaql/src/registry/resolvers/dynamo_mutation.rs` — the DynamoDB
  graph mutation engine (`CreateNode` / `UpdateNode` / `DeleteNode`);
* `engine/crates/engine-v2/src/operation/input_value/query/mod.rs` — the
  structural equality of operation-side input values against schema-side
  defaults;
* `engine/crates/engine-v2/schema/src/builder/requires.rs` — the
  required-field-set deduplication.

Rust `HashMap`/`IndexMap`/`BTreeMap` values are modelled as association
lists; machine integers as `Nat`/`Int`; fallible code as `Except`/`Option`.
-/

set_option autoImplicit false

namespace Grafbase

/-! ## Pagination cursor (`common/dynamodb/src/paginated.rs`)

`PaginatedCursor` and `PaginatedCursor::from_graphql` (lines 20-90).
`first`/`last` are `usize` in the source, hence `Nat` here. -/

/-- `PaginatedCursor` (paginated.rs:21): `Forward { exclusive_last_key, first,
nested }` or `Backward { exclusive_first_key, last, nested }` where `nested`
is `(relation_name, parent_pk)`. -/
inductive PaginatedCursor where
  | forward (exclusiveLastKey : Option String) (first : Nat)
      (nested : Option (String × String))
  | backward (exclusiveFirstKey : Option String) (last : Nat)
      (nested : Option (String × String))
deriving DecidableEq, Repr

/-- `CursorCreation` (paginated.rs:36-58): the six error variants of cursor
construction. -/
inductive CursorCreation where
  | sameParameterSameTime
  | firstNonNegative
  | lastNonNegative
  | firstAndBeforeSameTime
  | lastAndAfterSameTime
  | direction
deriving DecidableEq, Repr

/-- `PaginatedCursor::from_graphql` (paginated.rs:66-90): the `match`
on `(first, after, last, before)`, with arms in source order. -/
def PaginatedCursor.fromGraphql (first last : Option Nat)
    (after before : Option String) (nested : Option (String × String)) :
    Except CursorCreation PaginatedCursor :=
  match first, after, last, before with
  | some _, _, some _, _ => .error .sameParameterSameTime
  | some _, _, _, some _ => .error .firstAndBeforeSameTime
  | _, some _, some _, _ => .error .lastAndAfterSameTime
  | some first, after, none, none => .ok (.forward after first nested)
  | none, none, some last, before => .ok (.backward before last nested)
  | none, _, none, _ => .error .direction

/-- `PaginatedCursor::nested_parent_pk` (paginated.rs:115-121). -/
def PaginatedCursor.nestedParentPk : PaginatedCursor → Option String
  | .forward _ _ nested => nested.map (·.2)
  | .backward _ _ nested => nested.map (·.2)

/-- `PaginatedCursor::limit` (paginated.rs:129-134): `first` for a forward
cursor, `last` for a backward one. -/
def PaginatedCursor.limit : PaginatedCursor → Nat
  | .forward _ first _ => first
  | .backward _ last _ => last

end Grafbase

namespace Grafbase

/-! ## `query_node_edges` (`common/dynamodb/src/paginated.rs`, lines 207-450)

The store rows are grouped into logical entities keyed by partition key (or,
for rows whose partition key is the nested parent's id, by sort key). -/

/-- Modelled from the spec: `graph_entities::ID` (the `graph_entities` crate
is not part of the corpus). A parsed row id is either a node id, rendered
as `"<TypeName>#<ULID>"` per the spec's identifier format, or a constraint
id (rendering modelled as a distinct tagged string); `ty` extracts the type
component used by `sk.ty()` in the source. -/
inductive GraphID where
  | nodeID (ty ulid : String)
  | constraintID (ty field value : String)
deriving DecidableEq, Repr

/-- String rendering of a parsed id (`ID::to_string` in the source). -/
def GraphID.toStr : GraphID → String
  | .nodeID ty ulid => ty ++ "#" ++ ulid
  | .constraintID ty field value => "__C#" ++ ty ++ "#" ++ field ++ "#" ++ value

/-- The type component of an id (`NodeID::ty`). -/
def GraphID.ty : GraphID → String
  | .nodeID t _ => t
  | .constraintID t _ _ => t

/-- One DynamoDB row as consumed by `query_node_edges` and the mutation
engine: the source asserts (`expect("can't fail")`, paginated.rs:339-342)
that every stored row carries string `__pk`/`__sk` attributes parseable as
ids, so they are total fields here; `relationNames` is the optional
`__relation_name` string set. Remaining attributes play no role in the
claims under verification and are omitted from the row model. -/
structure Row where
  pk : GraphID
  sk : GraphID
  relationNames : Option (List String)
deriving DecidableEq, Repr

/-- `QueryValue` (paginated.rs:159-164): one logical entity gathered from
several physical rows. -/
structure QueryValue where
  node : Option Row
  edges : List (String × List Row)
  constraints : List Row
deriving DecidableEq, Repr

/-- `QueryResult` (paginated.rs:196-200): the accumulated entities (an
insertion-ordered map, modelled as an association list with distinct keys)
plus the continuation cursor. -/
structure QueryResult where
  values : List (String × QueryValue)
  lastEvaluatedKey : Option String
deriving DecidableEq, Repr

/-- The parameters of one `query_node_edges` call that the accumulation
loop reads: the cursor, the requested edge names and the node type
(lowercased at entry, paginated.rs:216). -/
structure QueryCtx where
  cursor : PaginatedCursor
  edges : List String
  nodeType : String
deriving Repr

/-- paginated.rs:345-348: a row is a top-level nested row when its partition
key equals the cursor's nested parent pk. -/
def isTopLevelNested (ctx : QueryCtx) (pk : GraphID) : Bool :=
  match ctx.cursor.nestedParentPk with
  | some queryPk => queryPk = pk.toStr
  | none => false

/-- paginated.rs:350-354: the grouping key of a row — the sort key for
top-level nested rows, the partition key otherwise. -/
def groupKey (ctx : QueryCtx) (row : Row) : String :=
  if isTopLevelNested ctx row.pk then row.sk.toStr else row.pk.toStr

/-- paginated.rs:343,373-375: whether the row's relation-name set contains
the requested edge name (`relation_names.map(contains).unwrap_or_default()`). -/
def rowHasEdge (row : Row) (edge : String) : Bool :=
  (row.relationNames.map (fun ns => ns.contains edge)).getD false

/-- paginated.rs:369-383 (the `Entry::Vacant` arm): classify a fresh row
into a new `QueryValue`. -/
def newQueryValue (ctx : QueryCtx) (row : Row) : QueryValue :=
  let empty : QueryValue := { node := none, edges := [], constraints := [] }
  match row.pk, row.sk with
  | .nodeID _ _, .nodeID skTy _ =>
    if skTy = ctx.nodeType then { empty with node := some row }
    else
      match ctx.edges.find? (fun e => rowHasEdge row e) with
      | some e => { empty with edges := [(e, [row])] }
      | none => empty
  | .constraintID _ _ _, .constraintID _ _ _ =>
    { empty with constraints := [row] }
  | _, _ => empty

/-- IndexMap `entry` on the per-entity edge map (paginated.rs:398-405):
push onto an existing edge bucket, or append a fresh one. -/
def pushEdge (l : List (String × List Row)) (e : String) (row : Row) :
    List (String × List Row) :=
  if (List.lookup e l).isSome then
    l.map (fun kv => if kv.1 = e then (kv.1, kv.2 ++ [row]) else kv)
  else l ++ [(e, [row])]

/-- paginated.rs:387-414 (the `Entry::Occupied` arm): merge a row into the
already-present `QueryValue` under the same grouping key. -/
def mergeQueryValue (ctx : QueryCtx) (row : Row) (v : QueryValue) : QueryValue :=
  match row.pk, row.sk with
  | .nodeID _ _, .nodeID skTy _ =>
    if skTy = ctx.nodeType then { v with node := some row }
    else
      match ctx.edges.find? (fun e => rowHasEdge row e) with
      | some e => { v with edges := pushEdge v.edges e row }
      | none => v
  | .constraintID _ _ _, .constraintID _ _ _ =>
    { v with constraints := v.constraints ++ [row] }
  | _, _ => v

/-- paginated.rs:336-417: the body of the per-item loop. An item is only
processed while at most `limit` entities are accumulated; a fresh grouping
key inserted when exactly `limit` entities exist additionally records the
row's partition key as `last_evaluated_key` ("We do insert the PK just
before inserting it the n+1 element"). -/
def processItem (ctx : QueryCtx) (limit : Nat) (res : QueryResult) (row : Row) :
    QueryResult :=
  if res.values.length ≤ limit then
    match List.lookup (groupKey ctx row) res.values with
    | none =>
      { values := res.values ++ [(groupKey ctx row, newQueryValue ctx row)]
        lastEvaluatedKey :=
          if res.values.length = limit then some row.pk.toStr
          else res.lastEvaluatedKey }
    | some _ =>
      { res with
        values := res.values.map
          (fun kv =>
            if kv.1 = groupKey ctx row then (kv.1, mergeQueryValue ctx row kv.2)
            else kv) }
  else res

/-- The filter closure of paginated.rs:430-435: keep an entity unless its
key equals the recorded `last_evaluated_key` ("If we have an element which
is the last_evaluated_key it means it is the n+1 element we fetched, so we
must discard it"). -/
def keyNe (k : String) (kv : String × QueryValue) : Bool :=
  decide (kv.1 ≠ k)

/-- paginated.rs:423-438: after a page, when more than `limit` entities are
accumulated or a continuation key was recorded, drop every entity keyed by
the recorded `last_evaluated_key` and keep the first `limit` entities. -/
def pagePost (limit : Nat) (res : QueryResult) : QueryResult :=
  if limit < res.values.length ∨ res.lastEvaluatedKey.isSome then
    { res with
      values :=
        (res.values.filter (fun kv =>
          match res.lastEvaluatedKey with
          | some lek => keyNe lek kv
          | none => true)).take limit }
  else res

/-- paginated.rs:336-438: process one page of store results — fold the item
loop over the page, then apply the filtering step. -/
def processPage (ctx : QueryCtx) (limit : Nat) (res : QueryResult)
    (items : List Row) : QueryResult :=
  pagePost limit (items.foldl (processItem ctx limit) res)

/-- paginated.rs:298-449: the whole accumulation loop of
`query_node_edges`, with the store abstracted as the list of pages it
serves (`limit = cursor.limit()`, line 298). The source's
`while result.values.len() <= limit` guard is always true at the top of an
iteration — after every page either the filter reduced the accumulator to
at most `limit` entities or it already held at most `limit` — so the loop
exits only through the `PageState::End` arm, i.e. exactly when the pages
are exhausted, and the loop is a fold over the pages. -/
def queryNodeEdges (ctx : QueryCtx) (pages : List (List Row)) : QueryResult :=
  pages.foldl (processPage ctx ctx.cursor.limit)
    { values := [], lastEvaluatedKey := none }

/-! ### The page-loop invariant for C4 -/

/-- The invariant that holds between pages of `query_node_edges`: grouping
keys are distinct, and either no continuation key has been recorded and at
most `limit` entities are accumulated, or a continuation key has been
recorded, exactly `limit` entities are accumulated, and none of them is
keyed by the recorded key. -/
def PageInv (limit : Nat) (res : QueryResult) : Prop :=
  (res.values.map Prod.fst).Nodup ∧
  ((res.lastEvaluatedKey = none ∧ res.values.length ≤ limit) ∨
    (∃ k, res.lastEvaluatedKey = some k ∧ res.values.length = limit ∧
      ∀ kv ∈ res.values, kv.1 ≠ k))

/-- The invariant that holds between items within one page: as soon as the
accumulator overflows to `limit + 1` entities a continuation key has been
recorded. -/
def ItemInv (limit : Nat) (res : QueryResult) : Prop :=
  (res.values.map Prod.fst).Nodup ∧
  ((res.lastEvaluatedKey = none ∧ res.values.length ≤ limit) ∨
    (∃ k, res.lastEvaluatedKey = some k ∧ res.values.length = limit ∧
      ∀ kv ∈ res.values, kv.1 ≠ k) ∨
    (res.lastEvaluatedKey.isSome ∧ res.values.length = limit + 1))


/-! ## DynamoDB graph mutation engine
(`common/dynaql/src/registry/resolvers/dynamo_mutation.rs`) -/

/-- `dynaql_value::Value` as it reaches the mutation resolvers: GraphQL
input values (numbers collapsed to `Int`; enum/binary variants are not
exercised by the mutation claims). -/
inductive GValue where
  | null
  | number (n : Int)
  | string (s : String)
  | boolean (b : Bool)
  | list (xs : List GValue)
  | object (fields : List (String × GValue))

/-- The DynamoDB attribute values the mutation engine constructs: plain
strings (ids, type names, timestamps via `into_attr`), string sets
(relation names) and attribute-encoded GraphQL values. -/
inductive AttrValue where
  | s (v : String)
  | ss (v : List String)
  | fromJson (v : GValue)

/-- Modelled from the spec: `value_to_attribute` (dynaql registry utils,
not part of the corpus) encodes a GraphQL JSON value as a DynamoDB
attribute; the claims only need that structurally identical inputs map to
identical attributes, so it is modelled as the injective embedding into
`AttrValue.fromJson`. -/
def value_to_attribute (v : GValue) : AttrValue := .fromJson v

/-- One write operation of a `TransactWriteItem` as the mutation engine
builds them: a `Put` of a full item, a conditional `Update` (key,
set-expression pairs, whether the `attribute_exists(#pk) AND
attribute_exists(#sk)` condition is attached), or a `Delete` keyed by
`(__pk, __sk)`. -/
inductive TxOp where
  | put (item : List (String × AttrValue))
  | update (key : String × String) (sets : List (String × AttrValue))
      (conditionExists : Bool)
  | delete (key : String × String)

/-- `TxItem` of the dynamodb crate as used by dynamo_mutation.rs: the
batched transaction item `{ pk, sk, relation_name, transaction }`. -/
structure TxItem where
  pk : String
  sk : String
  relationName : Option String
  op : TxOp

/-- `HashMap::insert` on an association list: replace the entry with the
same key, or append a fresh one. -/
def insertAttr (l : List (String × AttrValue)) (k : String) (v : AttrValue) :
    List (String × AttrValue) :=
  if (List.lookup k l).isSome then
    l.map (fun kv => if kv.1 = k then (k, v) else kv)
  else l ++ [(k, v)]

/-- The slice of `MetaType` the mutation engine reads: the type name,
`MetaType::relations` (relation field name to relation name) and the base
target type of each field (`field_by_name(..).ty` through
`type_to_base_type`, dynamo_mutation.rs:826-830). -/
structure MetaTypeM where
  name : String
  relations : List (String × String)
  fieldTypes : List (String × String)
deriving DecidableEq, Repr

/-- dynamo_mutation.rs:231-259: the item of the node `Put` built by
`node_create` — every input field that is not a relation field, encoded by
`value_to_attribute`, followed by the system attributes in source order:
`__pk = __sk = id`, `__type`, `created_at = updated_at = now`,
`__gsi1pk = type`, `__gsi1sk = id`, `__gsi2pk = __gsi2sk = id`. -/
def systemAttrs (tyName id now : String) : List (String × AttrValue) :=
  [("__pk", .s id), ("__sk", .s id), ("__type", .s tyName),
   ("created_at", .s now), ("updated_at", .s now),
   ("__gsi1pk", .s tyName), ("__gsi1sk", .s id),
   ("__gsi2pk", .s id), ("__gsi2sk", .s id)]

/-- The attribute names `node_create` writes after copying the input
(dynamo_mutation.rs:248-259). -/
def reservedAttrs : List String :=
  ["__pk", "__sk", "__type", "created_at", "updated_at",
   "__gsi1pk", "__gsi1sk", "__gsi2pk", "__gsi2sk"]

/-- dynamo_mutation.rs:231-259: fold the non-relation input fields into the
item, then insert the system attributes. -/
def buildNodeItem (ty : MetaTypeM) (input : List (String × GValue))
    (id now : String) : List (String × AttrValue) :=
  (systemAttrs ty.name id now).foldl (fun acc kv => insertAttr acc kv.1 kv.2)
    ((input.filter (fun kv => (List.lookup kv.1 ty.relations).isNone)).foldl
      (fun acc kv => insertAttr acc kv.1 (value_to_attribute kv.2)) [])

/-- Modelled from the spec: `ulid_rs::Ulid::increment` (the ulid crate is
not part of the corpus). A ULID is 48 timestamp bits over 80 random bits,
modelled as a natural number; incrementing adds one and fails when the
random part is exhausted. -/
def ulidIncrement (u : Nat) : Option Nat :=
  if u % 2 ^ 80 = 2 ^ 80 - 1 then none else some (u + 1)

/-- dynamo_mutation.rs:215-222: the execution id used for the node id —
the per-request execution id incremented once per unit of the shared
counter's current value. -/
def currentExecutionId (executionId : Nat) : Nat → Option Nat
  | 0 => some executionId
  | n + 1 => (currentExecutionId executionId n).bind ulidIncrement

mutual

/-- dynamo_mutation.rs:650-659 (`inputs`): flatten a relation field's value
into the list of child input objects (an object is one input, a list
flattens recursively, anything else contributes none). -/
def inputsOf : GValue → Option (List (List (String × GValue)))
  | .object obj => some [obj]
  | .list xs => some (inputsOfList xs)
  | _ => none

def inputsOfList : List GValue → List (List (String × GValue))
  | [] => []
  | v :: rest => (inputsOf v).getD [] ++ inputsOfList rest

end

/-- dynamo_mutation.rs:208-349 together with 815-998, restricted to the
identifier assignment that claim C2 concerns. `node_create` derives its
node id from the execution id and the shared `Arc<AtomicUsize>` counter;
the counter is only ever read (`increment.load`, line 217) and no call
site in the corpus ever writes it, so it is modelled as an immutable
natural number threaded through the recursion exactly as the `Arc` clone
is (lines 293, 500, 855). For every relation field whose input carries a
`create` object (and no `link`/`unlink`), `relation_handle` recurses into
`node_create` for the child type resolved through the registry. The result
lists the assigned ids in traversal order, `none` standing for the
`expect("Shouldn't fail")` panic when a ULID increment overflows. Fuel
bounds the recursion depth, which the source bounds by the finite input
nesting. -/
def nodeCreateIds (reg : List (String × MetaTypeM)) :
    Nat → MetaTypeM → Nat → Nat → List (String × GValue) → List (Option String)
  | 0, _, _, _, _ => []
  | fuel + 1, ty, executionId, increment, input =>
    ((currentExecutionId executionId increment).map
      (fun u => ty.name ++ "#" ++ toString u)) ::
    ty.relations.foldl (fun acc fieldRel =>
      acc ++
        (match List.lookup fieldRel.1 input,
            (List.lookup fieldRel.1 ty.fieldTypes).bind
              (fun tn => List.lookup tn reg) with
        | some v, some childTy =>
          ((inputsOf v).getD []).foldl (fun acc2 childInput =>
            acc2 ++
              (match List.lookup "create" childInput,
                  List.lookup "link" childInput,
                  List.lookup "unlink" childInput with
              | some (.object creationInput), none, none =>
                nodeCreateIds reg fuel childTy executionId increment
                  creationInput
              | _, _, _ => [])) []
        | _, _ => [])) []

/-- dynamo_mutation.rs:545-568 and 1103-1107: the rows extracted from a
loader `QueryResult` by the update and delete paths — each entity's node
row chained with all its edge rows; the `constraints` bucket is not read. -/
def nodeAndEdgeRows (r : QueryResult) : List Row :=
  r.values.flatMap (fun kv => kv.2.node.toList ++ kv.2.edges.flatMap (·.2))

/-- Every row a `QueryResult` carries, constraint rows included — the
claim-side notion of "rows returned by a lookup". -/
def allRowsFound (r : QueryResult) : List Row :=
  r.values.flatMap
    (fun kv => kv.2.node.toList ++ kv.2.edges.flatMap (·.2) ++ kv.2.constraints)

/-- dynamo_mutation.rs:1103-1107: the rows the `DeleteNode` arm flattens
out of the two lookups (`id` as partition key, then `id` as sort key) —
node and edge rows of each returned entity. -/
def deleteRowsFound (itemsPk itemsSk : Option QueryResult) : List Row :=
  ([itemsPk, itemsSk].flatMap Option.toList).flatMap (fun x =>
    x.values.flatMap (fun y => y.2.node.toList ++ y.2.edges.flatMap (·.2)))

/-- dynamo_mutation.rs:1129-1147: the `Delete` transaction item for one
row, keyed by the row's own `(__pk, __sk)` pair. -/
def mkDeleteTx (row : Row) : TxItem :=
  { pk := row.pk.toStr, sk := row.sk.toStr, relationName := none,
    op := .delete (row.pk.toStr, row.sk.toStr) }

/-- dynamo_mutation.rs:1081-1160 (the `DeleteNode` arm, after the two
lookups resolved): build one `Delete` per flattened row; when no row was
found fail with the "not found" error before any write is submitted,
otherwise hand the batch to the transaction batcher. -/
def deleteNodeResolve (itemsPk itemsSk : Option QueryResult) :
    Except String (List TxItem) :=
  if ((deleteRowsFound itemsPk itemsSk).map mkDeleteTx).isEmpty then
    .error "This item was not found, you can't delete an inexistant item."
  else .ok ((deleteRowsFound itemsPk itemsSk).map mkDeleteTx)

/-- dynamo_mutation.rs:570-626 (`node_update`'s update future): the
duplicate partition keys discovered by the reverse-index query — the
`__pk` of every node/edge row of every returned entity. -/
def duplicatePksOf (reverseResult : Option QueryResult) : List String :=
  (match reverseResult with
    | none => []
    | some r => nodeAndEdgeRows r).map (fun (row : Row) => row.pk.toStr)

/-- dynamo_mutation.rs:570-626: the `Update` transaction items submitted by
`node_update` — nothing at all when the input holds no basic (non-relation)
field ("We only update non-relation items if there is a need to update
them", line 574), otherwise one conditional `Update` applying the basic
fields plus a refreshed `updated_at` to the main row (`pk = id`) and to
every duplicate row (`pk` from the reverse query, `sk = id`). -/
def nodeUpdateTransactions (ty : MetaTypeM) (input : List (String × GValue))
    (id now : String) (reverseResult : Option QueryResult) : List TxItem :=
  if (input.filter (fun kv => (List.lookup kv.1 ty.relations).isNone)).isEmpty
  then []
  else
    (id :: duplicatePksOf reverseResult).map (fun pk =>
      { pk := pk, sk := id, relationName := none,
        op := .update (pk, id)
          ((input.filter
              (fun kv => (List.lookup kv.1 ty.relations).isNone)).map
            (fun kv => (kv.1, value_to_attribute kv.2)) ++
            [("updated_at", .s now)])
          true })

/-- dynamo_mutation.rs:450-482 (`node_update`'s selection future): the
in-memory projection of one loaded entity — the basic input fields are
written over the entity's attributes and `updated_at` is refreshed only
when at least one basic field is present
(`should_update_updated_at = !basic.is_empty()`, line 442). -/
def nodeUpdateProjection (ty : MetaTypeM) (input : List (String × GValue))
    (now : String) (entity : List (String × AttrValue)) :
    List (String × AttrValue) :=
  if (input.filter (fun kv => (List.lookup kv.1 ty.relations).isNone)).isEmpty
  then
    (input.filter (fun kv => (List.lookup kv.1 ty.relations).isNone)).foldl
      (fun acc kv => insertAttr acc kv.1 (value_to_attribute kv.2)) entity
  else
    insertAttr
      ((input.filter (fun kv => (List.lookup kv.1 ty.relations).isNone)).foldl
        (fun acc kv => insertAttr acc kv.1 (value_to_attribute kv.2)) entity)
      "updated_at" (.s now)

/-! ## Operation-side input values against schema-side defaults
(`engine/crates/engine-v2/src/operation/input_value/query/mod.rs`) -/

/-- `IdRange` (id-newtypes crate): a contiguous index range `start..stop`
into an arena vector. -/
structure IdRange where
  start : Nat
  stop : Nat
deriving DecidableEq, Repr

/-- Slicing an arena by a range (`&arena[range]`). -/
def sliceRange {α : Type} (l : List α) (r : IdRange) : List α :=
  (l.drop r.start).take (r.stop - r.start)

/-- `QueryInputValue` (query/mod.rs:38-56): one coerced operation-side
value; nested values are ranges into the owning arenas. Ids are plain
indices here; the `f64` payload is modelled by its bit pattern, which the
claims never inspect. -/
inductive QueryInputValue where
  | null
  | string (s : String)
  | enumValue (id : Nat)
  | int (n : Int)
  | bigInt (n : Int)
  | float (bits : Int)
  | boolean (b : Bool)
  | inputObject (fields : IdRange)
  | list (vals : IdRange)
  | map (kvs : IdRange)
  | u64 (n : Nat)
  | defaultValue (id : Nat)
  | var (id : Nat)
deriving DecidableEq, Repr

/-- Modelled from the spec: `SchemaInputValue` of the engine-v2 schema
crate (its defining module is not part of the corpus; the variants and
payloads are reconstructed from the exhaustive match over it in
query/mod.rs:185-267) — the same shape as `QueryInputValue` without the
`DefaultValue`/`Variable` indirections, strings and map keys interned as
string ids. -/
inductive SchemaInputValue where
  | null
  | string (id : Nat)
  | enumValue (id : Nat)
  | int (n : Int)
  | bigInt (n : Int)
  | float (bits : Int)
  | boolean (b : Bool)
  | inputObject (fields : IdRange)
  | list (vals : IdRange)
  | map (kvs : IdRange)
  | u64 (n : Nat)
deriving DecidableEq, Repr

/-- `QueryInputValues` (query/mod.rs:14-26): the operation-side arenas. -/
structure QueryInputValues where
  values : List QueryInputValue
  inputFields : List (Nat × QueryInputValue)
  keyValues : List (String × QueryInputValue)
deriving DecidableEq, Repr

/-- The schema-side arenas the equality reads (schema crate, modelled from
its use in query/mod.rs): values, input-object fields kept sorted by
field-definition id within each range, map entries keyed by interned
string ids, and the interned string table. -/
structure SchemaInputValues where
  values : List SchemaInputValue
  inputFields : List (Nat × SchemaInputValue)
  keyValues : List (Nat × SchemaInputValue)
  strings : List String
deriving DecidableEq, Repr

/-- Rust `slice::binary_search_by` (used at query/mod.rs:207 and 237):
halving search over `xs[left..right]`, answering the index of an element
on which the comparator returns `eq`. Fuel bounds the iterations; the
interval shrinks every step, so `length + 1` fuel always suffices. -/
def binarySearchGo {α : Type} (xs : List α) (f : α → Ordering) :
    Nat → Nat → Nat → Option Nat
  | 0, _, _ => none
  | fuel + 1, left, right =>
    if left < right then
      match xs.get? (left + (right - left) / 2) with
      | none => none
      | some x =>
        match f x with
        | .lt => binarySearchGo xs f fuel (left + (right - left) / 2 + 1) right
        | .gt => binarySearchGo xs f fuel left (left + (right - left) / 2)
        | .eq => some (left + (right - left) / 2)
    else none

/-- Rust `slice::binary_search_by` over a whole slice. -/
def binarySearchBy {α : Type} (xs : List α) (f : α → Ordering) : Option Nat :=
  binarySearchGo xs f (xs.length + 1) 0 xs.length

/-- Modelled from the spec: the schema-side equality between two
`SchemaInputValue`s that the `DefaultValue` arm (query/mod.rs:248-251)
delegates to; its impl lives in the schema crate outside the corpus and is
modelled as structural equality through the arenas. The claims under
verification never reach this arm. -/
def ssEq (sch : SchemaInputValues) :
    Nat → SchemaInputValue → SchemaInputValue → Bool
  | 0, _, _ => false
  | fuel + 1, l, r =>
    match l, r with
    | .null, .null => true
    | .string a, .string b => a == b
    | .enumValue a, .enumValue b => a == b
    | .int a, .int b => a == b
    | .bigInt a, .bigInt b => a == b
    | .float a, .float b => a == b
    | .boolean a, .boolean b => a == b
    | .u64 a, .u64 b => a == b
    | .inputObject a, .inputObject b =>
      (sliceRange sch.inputFields a).length ==
          (sliceRange sch.inputFields b).length &&
        ((sliceRange sch.inputFields a).zip
            (sliceRange sch.inputFields b)).all
          (fun p => p.1.1 == p.2.1 && ssEq sch fuel p.1.2 p.2.2)
    | .list a, .list b =>
      (sliceRange sch.values a).length == (sliceRange sch.values b).length &&
        ((sliceRange sch.values a).zip (sliceRange sch.values b)).all
          (fun p => ssEq sch fuel p.1 p.2)
    | .map a, .map b =>
      (sliceRange sch.keyValues a).length ==
          (sliceRange sch.keyValues b).length &&
        ((sliceRange sch.keyValues a).zip (sliceRange sch.keyValues b)).all
          (fun p => p.1.1 == p.2.1 && ssEq sch fuel p.1.2 p.2.2)
    | _, _ => false

/-- The structural equality `PartialEq<SchemaInputValue> for
OperationWalker<&QueryInputValue>` (query/mod.rs:185-267). The recursion
through the arenas is fuelled; the source recursion is bounded because
arenas built by push/reserve are finite and acyclic in depth. Arena
indexing that would panic in the source (out-of-bounds id) is modelled as
`false`. -/
def qsEq (op : QueryInputValues) (sch : SchemaInputValues) :
    Nat → QueryInputValue → SchemaInputValue → Bool
  | 0, _, _ => false
  | fuel + 1, l, r =>
    match l, r with
    | .null, .null => true
    | .string s, .string rid =>
      match sch.strings.get? rid with
      | some s2 => s == s2
      | none => false
    | .enumValue a, .enumValue b => a == b
    | .int a, .int b => a == b
    | .bigInt a, .bigInt b => a == b
    | .u64 a, .u64 b => a == b
    | .float a, .float b => a == b
    | .boolean a, .boolean b => a == b
    | .inputObject lids, .inputObject rids =>
      if (sliceRange op.inputFields lids).length ≠
          (sliceRange sch.inputFields rids).length then false
      else
        (sliceRange op.inputFields lids).all (fun p =>
          match binarySearchBy (sliceRange sch.inputFields rids)
              (fun probe => compare probe.1 p.1) with
          | some i =>
            match (sliceRange sch.inputFields rids).get? i with
            | some probe => qsEq op sch fuel p.2 probe.2
            | none => false
          | none => false)
    | .list lids, .list rids =>
      if (sliceRange op.values lids).length ≠
          (sliceRange sch.values rids).length then false
      else
        ((sliceRange op.values lids).zip (sliceRange sch.values rids)).all
          (fun p => qsEq op sch fuel p.1 p.2)
    | .map lids, .map rids =>
      (sliceRange op.keyValues lids).all (fun p =>
        match binarySearchBy (sliceRange sch.keyValues rids)
            (fun probe => compare (sch.strings.getD probe.1 "") p.1) with
        | some i =>
          match (sliceRange sch.keyValues rids).get? i with
          | some probe => qsEq op sch fuel p.2 probe.2
          | none => false
        | none => false)
    | .defaultValue id, r =>
      match sch.values.get? id with
      | some v => ssEq sch fuel v r
      | none => false
    | .var _, _ => false
    | _, _ => false

/-- The comparable tag of an operation-side value; `none` for the
`DefaultValue`/`Variable` indirections, whose equality is not a tag
comparison. -/
def qTag : QueryInputValue → Option Nat
  | .null => some 0
  | .string _ => some 1
  | .enumValue _ => some 2
  | .int _ => some 3
  | .bigInt _ => some 4
  | .float _ => some 5
  | .boolean _ => some 6
  | .inputObject _ => some 7
  | .list _ => some 8
  | .map _ => some 9
  | .u64 _ => some 10
  | .defaultValue _ => none
  | .var _ => none

/-- The tag of a schema-side value, aligned with `qTag`. -/
def sTag : SchemaInputValue → Nat
  | .null => 0
  | .string _ => 1
  | .enumValue _ => 2
  | .int _ => 3
  | .bigInt _ => 4
  | .float _ => 5
  | .boolean _ => 6
  | .inputObject _ => 7
  | .list _ => 8
  | .map _ => 9
  | .u64 _ => 10

/-! ## Required-field-set deduplication
(`engine/crates/engine-v2/schema/src/builder/requires.rs`) -/

/-- `RequiredField`: a resolved field-definition id with its ordered,
coerced argument list of (input-value-definition id, coerced value id)
pairs. -/
structure RequiredField where
  definitionId : Nat
  arguments : List (Nat × Nat)
deriving DecidableEq, Repr

/-- `RequiredFieldSetItem`: the deduplicated field id plus the converted
subselection. -/
inductive RequiredFieldSetItem where
  | mk (id : Nat) (subselection : List RequiredFieldSetItem)

/-- `federated_graph::FieldSetItem` as `convert_item` consumes it: a
federated field reference, its supplied arguments (federated
input-value-definition id paired with the federated value, the latter
opaque here) and the subselection. -/
inductive FieldSetItemM where
  | mk (field : Nat) (arguments : List (Nat × Nat))
      (subselection : List FieldSetItemM)

/-- The slice of `BuildContext`/`Graph` that `convert_item` reads:
the federated-to-local id maps (partial — an unresolvable reference drops
the item), every field definition's argument ids in declaration order,
each argument's type, optional default, required flag and name, and the
coercer. The coercer (`InputValueCoercer`, builder/coerce.rs, not in the
corpus) is modelled from the spec as a pure function from the argument's
type and the federated value to the coerced input-value id, so that
structurally identical values coerce to identical ids. -/
structure BuildCtxM where
  fieldIdMap : List (Nat × Nat)
  inputValueIdMap : List (Nat × Nat)
  argumentIds : List (Nat × List Nat)
  tyOf : List (Nat × Nat)
  defaultValue : List (Nat × Nat)
  requiredIds : List Nat
  names : List (Nat × String)
  coerce : Nat → Nat → Nat

/-- Rust `Vec::swap_remove(i)`: replace index `i` with the last element and
pop. -/
def swapRemove {α : Type} (l : List α) (i : Nat) : List α :=
  match l.getLast? with
  | none => l
  | some last => (l.set i last).dropLast

/-- requires.rs:77-84: resolve the federated argument ids through the
input-value id map, dropping unresolvable ones. -/
def resolveFedArgs (ctx : BuildCtxM) (args : List (Nat × Nat)) :
    List (Nat × Nat) :=
  args.filterMap
    (fun p => (List.lookup p.1 ctx.inputValueIdMap).map (fun i => (i, p.2)))

/-- requires.rs:87-104: walk the field's declared arguments in order — a
supplied federated value is coerced (and swap-removed from the working
list), else the schema default is used, else a required argument fails
with its name, else the argument is omitted. Graph indexing (`graph[id]`)
cannot fail for ids taken from `argument_ids` and is modelled with a
default. -/
def buildArguments (ctx : BuildCtxM) :
    List Nat → List (Nat × Nat) → Except String (List (Nat × Nat))
  | [], _ => .ok []
  | aid :: rest, fedArgs =>
    match fedArgs.findIdx? (fun p => p.1 == aid) with
    | some idx =>
      match fedArgs.get? idx with
      | some fed =>
        match buildArguments ctx rest (swapRemove fedArgs idx) with
        | .ok tail =>
          .ok ((aid, ctx.coerce ((List.lookup aid ctx.tyOf).getD 0) fed.2) :: tail)
        | .error e => .error e
      | none => .error "unreachable: position returned a valid index"
    | none =>
      match List.lookup aid ctx.defaultValue with
      | some did =>
        match buildArguments ctx rest fedArgs with
        | .ok tail => .ok ((aid, did) :: tail)
        | .error e => .error e
      | none =>
        if ctx.requiredIds.contains aid then
          .error ((List.lookup aid ctx.names).getD "")
        else buildArguments ctx rest fedArgs

/-- Lookup of a structural field in the dedup map. -/
def lookupField : List (RequiredField × Nat) → RequiredField → Option Nat
  | [], _ => none
  | (g, i) :: t, f => if g = f then some i else lookupField t f

/-- requires.rs:111-116: the `BTreeMap<RequiredField, RequiredFieldId>`
entry API — `entry(field).or_insert_with(|| RequiredFieldId::from(n))`
with `n` the map size before the insertion. The map is modelled as an
association list in insertion order; the source iterates the map only
after sorting by id (try_insert_into, lines 45-47), so its internal
key order never matters. -/
def orInsertField (s : List (RequiredField × Nat)) (f : RequiredField) :
    Nat × List (RequiredField × Nat) :=
  match lookupField s f with
  | some i => (i, s)
  | none => (s.length, s ++ [(f, s.length)])

mutual

/-- requires.rs:69-122 (`convert_item`): resolve the field reference (or
silently drop the item), build the coerced argument list, deduplicate the
resulting `RequiredField` through the ordered map, and recurse into the
subselection. -/
def convertItem (ctx : BuildCtxM) (s : List (RequiredField × Nat)) :
    FieldSetItemM →
    Except String (List (RequiredField × Nat) × Option RequiredFieldSetItem)
  | .mk field args sub =>
    match List.lookup field ctx.fieldIdMap with
    | none => .ok (s, none)
    | some definitionId =>
      match buildArguments ctx ((List.lookup definitionId ctx.argumentIds).getD [])
          (resolveFedArgs ctx args) with
      | .error e => .error e
      | .ok arguments =>
        match convertSet ctx (orInsertField s ⟨definitionId, arguments⟩).2 sub with
        | .error e => .error e
        | .ok (s2, items) =>
          .ok (s2, some (.mk (orInsertField s ⟨definitionId, arguments⟩).1 items))

/-- requires.rs:62-67 (`convert_set`): convert every item, dropping the
unresolvable ones, aborting on the first error. -/
def convertSet (ctx : BuildCtxM) (s : List (RequiredField × Nat)) :
    List FieldSetItemM →
    Except String (List (RequiredField × Nat) × List RequiredFieldSetItem)
  | [] => .ok (s, [])
  | item :: rest =>
    match convertItem ctx s item with
    | .error e => .error e
    | .ok (s1, none) => convertSet ctx s1 rest
    | .ok (s1, some it) =>
      match convertSet ctx s1 rest with
      | .error e => .error e
      | .ok (s2, items) => .ok (s2, it :: items)

end

/-- requires.rs:33-43: convert every buffered field set in order,
threading the converter state. -/
def convertAll (ctx : BuildCtxM) (s : List (RequiredField × Nat)) :
    List (List FieldSetItemM) →
    Except String
      (List (RequiredField × Nat) × List (List RequiredFieldSetItem))
  | [] => .ok (s, [])
  | fs :: rest =>
    match convertSet ctx s fs with
    | .error e => .error e
    | .ok (s1, set1) =>
      match convertAll ctx s1 rest with
      | .error e => .error e
      | .ok (s2, sets) => .ok (s2, set1 :: sets)

/-- requires.rs:24-51 (`try_insert_into`): convert all buffered sets from
an empty dedup map, then emit `required_fields` as the deduplicated fields
sorted by their ids, and the per-location `required_field_sets` in
insertion order. -/
def tryInsertInto (ctx : BuildCtxM) (buffer : List (List FieldSetItemM)) :
    Except String (List RequiredField × List (List RequiredFieldSetItem)) :=
  match convertAll ctx [] buffer with
  | .error e => .error e
  | .ok (s, sets) =>
    .ok ((s.mergeSort (fun a b => a.2 ≤ b.2)).map (fun e => e.1), sets)

/-- The dedup-map invariant: entry `k` of the map carries id `k` (so the
map is id-ordered by construction), and the structural fields are
pairwise distinct. -/
def FieldStateWF (s : List (RequiredField × Nat)) : Prop :=
  s.map Prod.snd = List.range s.length ∧ (s.map Prod.fst).Nodup

/-- The fold of `orInsertField` over a list of structural fields,
returning the id assigned to each occurrence together with the final
map — the dedup engine that `convert_item` drives. -/
def assignIds (s : List (RequiredField × Nat)) :
    List RequiredField → List Nat × List (RequiredField × Nat)
  | [] => ([], s)
  | f :: rest =>
    ((orInsertField s f).1 :: (assignIds (orInsertField s f).2 rest).1,
      (assignIds (orInsertField s f).2 rest).2)

/-! ### Association-list helper lemmas -/

theorem lookup_none_keys {β : Type} (k : String) :
    ∀ (l : List (String × β)), List.lookup k l = none → ∀ kv ∈ l, kv.1 ≠ k := by
  intro l
  induction l with
  | nil => simp
  | cons a t ih =>
    obtain ⟨a1, a2⟩ := a
    intro h kv hkv
    by_cases hak : k = a1
    · simp only [List.lookup, beq_iff_eq.mpr hak] at h
      exact absurd h (by simp)
    · have h' : List.lookup k t = none := by
        simpa only [List.lookup, beq_eq_false_iff_ne.mpr hak] using h
      rcases List.mem_cons.mp hkv with rfl | hm
      · exact fun hc => hak hc.symm
      · exact ih h' kv hm

theorem map_fst_modify {β : Type} (key : String) (f : β → β)
    (l : List (String × β)) :
    ((l.map fun kv => if kv.1 = key then (kv.1, f kv.2) else kv).map Prod.fst) =
      l.map Prod.fst := by
  induction l with
  | nil => rfl
  | cons a t ih =>
    simp only [List.map_cons, ih]
    by_cases h : a.1 = key <;> simp [h]

theorem keyNe_eq_true {k : String} {kv : String × QueryValue} :
    keyNe k kv = true ↔ kv.1 ≠ k := by
  simp [keyNe]

theorem filter_keyNe_eq_self (k : String) (l : List (String × QueryValue))
    (h : ∀ kv ∈ l, kv.1 ≠ k) : (l.filter fun kv => keyNe k kv) = l :=
  List.filter_eq_self.mpr fun kv hkv => keyNe_eq_true.mpr (h kv hkv)

theorem length_filter_keyNe_ge (k : String) :
    ∀ (l : List (String × QueryValue)), (l.map Prod.fst).Nodup →
      l.length ≤ (l.filter fun kv => keyNe k kv).length + 1 := by
  intro l
  induction l with
  | nil => simp
  | cons a t ih =>
    intro hnd
    rw [List.map_cons, List.nodup_cons] at hnd
    by_cases hak : a.1 = k
    · have hall : (t.filter fun kv => keyNe k kv) = t := by
        apply filter_keyNe_eq_self
        intro kv hkv hc
        exact hnd.1 (by rw [hak, ← hc]; exact List.mem_map_of_mem Prod.fst hkv)
      rw [List.filter_cons, if_neg (by simp [keyNe, hak]), hall]
      simp
    · rw [List.filter_cons, if_pos (keyNe_eq_true.mpr hak)]
      have := ih hnd.2
      simp only [List.length_cons]
      omega

theorem mem_filter_keyNe (k : String) (l : List (String × QueryValue))
    (kv : String × QueryValue) (h : kv ∈ l.filter fun kv => keyNe k kv) :
    kv.1 ≠ k :=
  keyNe_eq_true.mp (List.mem_filter.mp h).2

/-! ### Unfolding equations for the item loop -/

theorem processItem_over (ctx : QueryCtx) (limit : Nat) (res : QueryResult)
    (row : Row) (h1 : res.values.length = limit)
    (h2 : List.lookup (groupKey ctx row) res.values = none) :
    processItem ctx limit res row =
      { values := res.values ++ [(groupKey ctx row, newQueryValue ctx row)]
        lastEvaluatedKey := some row.pk.toStr } := by
  unfold processItem
  rw [if_pos (Nat.le_of_eq h1), h2, if_pos h1]

theorem processItem_fresh (ctx : QueryCtx) (limit : Nat) (res : QueryResult)
    (row : Row) (h1 : res.values.length ≤ limit)
    (hne : res.values.length ≠ limit)
    (h2 : List.lookup (groupKey ctx row) res.values = none) :
    processItem ctx limit res row =
      { values := res.values ++ [(groupKey ctx row, newQueryValue ctx row)]
        lastEvaluatedKey := res.lastEvaluatedKey } := by
  unfold processItem
  rw [if_pos h1, h2, if_neg hne]

theorem processItem_merge (ctx : QueryCtx) (limit : Nat) (res : QueryResult)
    (row : Row) (v : QueryValue) (h1 : res.values.length ≤ limit)
    (h2 : List.lookup (groupKey ctx row) res.values = some v) :
    processItem ctx limit res row =
      { res with
        values := res.values.map
          (fun kv =>
            if kv.1 = groupKey ctx row then (kv.1, mergeQueryValue ctx row kv.2)
            else kv) } := by
  unfold processItem
  rw [if_pos h1, h2]

theorem processItem_skip (ctx : QueryCtx) (limit : Nat) (res : QueryResult)
    (row : Row) (h1 : ¬ res.values.length ≤ limit) :
    processItem ctx limit res row = res := by
  unfold processItem
  rw [if_neg h1]

theorem processItem_itemInv (ctx : QueryCtx) (limit : Nat) (res : QueryResult)
    (row : Row) (h : ItemInv limit res) :
    ItemInv limit (processItem ctx limit res row) := by
  obtain ⟨hnd, hcases⟩ := h
  by_cases hlen : res.values.length ≤ limit
  case neg =>
    rw [processItem_skip ctx limit res row hlen]
    exact ⟨hnd, hcases⟩
  cases hlk : List.lookup (groupKey ctx row) res.values with
  | some v =>
    rw [processItem_merge ctx limit res row v hlen hlk]
    refine ⟨by rw [map_fst_modify]; exact hnd, ?_⟩
    rcases hcases with ⟨hnone, hle⟩ | ⟨k, hk, hklen, hkne⟩ | ⟨hsome, hlen1⟩
    · exact Or.inl ⟨hnone, by simpa using hle⟩
    · refine Or.inr (Or.inl ⟨k, hk, by simpa using hklen, ?_⟩)
      intro kv hkv
      obtain ⟨kv₁, hkv₁, hkv₁eq⟩ := List.mem_map.mp hkv
      have hfst : kv.1 = kv₁.1 := by
        rw [← hkv₁eq]
        by_cases hc : kv₁.1 = groupKey ctx row <;> simp [hc]
      rw [hfst]
      exact hkne kv₁ hkv₁
    · omega
  | none =>
    have hfresh : (groupKey ctx row) ∉ res.values.map Prod.fst := by
      intro hmem
      obtain ⟨kv, hkv, hkv1⟩ := List.mem_map.mp hmem
      exact lookup_none_keys _ _ hlk kv hkv hkv1
    have hnd' : ((res.values ++ [(groupKey ctx row, newQueryValue ctx row)]).map
        Prod.fst).Nodup := by
      rw [List.map_append]
      rw [List.nodup_append]
      refine ⟨hnd, List.nodup_singleton _, ?_⟩
      intro x hx hxmem
      simp only [List.map_cons, List.map_nil, List.mem_singleton] at hxmem
      exact hfresh (hxmem ▸ hx)
    by_cases heq : res.values.length = limit
    · rw [processItem_over ctx limit res row heq hlk]
      refine ⟨hnd', Or.inr (Or.inr ⟨by simp, by simp [heq]⟩)⟩
    · rw [processItem_fresh ctx limit res row hlen heq hlk]
      rcases hcases with ⟨hnone, _⟩ | ⟨k, hk, hklen, _⟩ | ⟨_, hlen1⟩
      · refine ⟨hnd', Or.inl ⟨hnone, ?_⟩⟩
        simp only [List.length_append, List.length_cons, List.length_nil]
        omega
      · exact absurd hklen heq
      · exact absurd hlen1 (by omega)

theorem pagePost_pageInv (limit : Nat) (mid : QueryResult)
    (h : ItemInv limit mid) : PageInv limit (pagePost limit mid) := by
  obtain ⟨hnd, hcases⟩ := h
  unfold pagePost
  rcases hcases with ⟨hnone, hle⟩ | ⟨k, hk, hklen, hkne⟩ | ⟨hsome, hlen1⟩
  · have hcond : ¬ (limit < mid.values.length ∨ mid.lastEvaluatedKey.isSome = true) := by
      rintro (hc | hc)
      · omega
      · rw [hnone] at hc
        simp at hc
    rw [if_neg hcond]
    exact ⟨hnd, Or.inl ⟨hnone, hle⟩⟩
  · rw [if_pos (Or.inr (by simp [hk]))]
    simp only [hk]
    rw [filter_keyNe_eq_self k mid.values hkne,
      List.take_of_length_le (Nat.le_of_eq hklen)]
    exact ⟨hnd, Or.inr ⟨k, rfl, hklen, hkne⟩⟩
  · obtain ⟨k, hk⟩ := Option.isSome_iff_exists.mp hsome
    rw [if_pos (Or.inr hsome)]
    simp only [hk]
    have hsub : List.Sublist
        ((mid.values.filter fun kv => keyNe k kv).take limit) mid.values :=
      (List.take_sublist _ _).trans (List.filter_sublist _)
    refine ⟨hnd.sublist (hsub.map Prod.fst), Or.inr ⟨k, rfl, ?_, ?_⟩⟩
    · have hge := length_filter_keyNe_ge k mid.values hnd
      rw [List.length_take]
      omega
    · intro kv hkv
      exact mem_filter_keyNe k mid.values kv (List.mem_of_mem_take hkv)

theorem processPage_pageInv (ctx : QueryCtx) (limit : Nat) (res : QueryResult)
    (items : List Row) (h : PageInv limit res) :
    PageInv limit (processPage ctx limit res items) := by
  have hstart : ItemInv limit res := by
    obtain ⟨hnd, hcases⟩ := h
    exact ⟨hnd, hcases.elim Or.inl (fun h => Or.inr (Or.inl h))⟩
  have hfold : ∀ (its : List Row) (r : QueryResult), ItemInv limit r →
      ItemInv limit (its.foldl (processItem ctx limit) r) := by
    intro its
    induction its with
    | nil => intro r hr; exact hr
    | cons x t ih => intro r hr; exact ih _ (processItem_itemInv ctx limit r x hr)
  exact pagePost_pageInv limit _ (hfold items res hstart)

theorem foldl_processPage_pageInv (ctx : QueryCtx) (limit : Nat) :
    ∀ (pages : List (List Row)) (res : QueryResult), PageInv limit res →
      PageInv limit (pages.foldl (processPage ctx limit) res) := by
  intro pages
  induction pages with
  | nil => intro res h; exact h
  | cons p t ih =>
    intro res h
    exact ih _ (processPage_pageInv ctx limit res p h)

theorem queryNodeEdges_pageInv (ctx : QueryCtx) (pages : List (List Row)) :
    PageInv ctx.cursor.limit (queryNodeEdges ctx pages) := by
  unfold queryNodeEdges
  exact foldl_processPage_pageInv ctx ctx.cursor.limit pages _
    ⟨List.nodup_nil, Or.inl ⟨rfl, Nat.zero_le _⟩⟩

end Grafbase

namespace Grafbase

/-- C3: `PaginatedCursor::from_graphql` fails with `SameParameterSameTime`
when both `first` and `last` are supplied, otherwise with
`FirstAndBeforeSameTime` when `first` and `before` are supplied, otherwise
with `LastAndAfterSameTime` when `last` and `after` are supplied, and with
`Direction` when neither `first` nor `last` is supplied; in every failing
case no cursor is constructed, and otherwise it returns `Forward` (when
`first` is set, carrying `after` as the exclusive boundary) or `Backward`
(when `last` is set, carrying `before`). The four error clauses apply in
the order the claim lists them, matching the source's match-arm order. -/
theorem fromGraphql_characterization (first last : Option Nat)
    (after before : Option String) (nested : Option (String × String)) :
    PaginatedCursor.fromGraphql first last after before nested =
      if first.isSome ∧ last.isSome then .error .sameParameterSameTime
      else if first.isSome ∧ before.isSome then .error .firstAndBeforeSameTime
      else if last.isSome ∧ after.isSome then .error .lastAndAfterSameTime
      else
        match first, last with
        | some f, _ => .ok (.forward after f nested)
        | none, some l => .ok (.backward before l nested)
        | none, none => .error .direction := by
  cases first <;> cases last <;> cases after <;> cases before <;>
    simp [PaginatedCursor.fromGraphql]

/-- C10: `PaginatedCursor::from_graphql` never returns the
`FirstNonNegative` or `LastNonNegative` error variants: its result is either
a constructed cursor or one of `SameParameterSameTime`,
`FirstAndBeforeSameTime`, `LastAndAfterSameTime`, `Direction`. -/
theorem fromGraphql_never_nonNegative (first last : Option Nat)
    (after before : Option String) (nested : Option (String × String)) :
    (PaginatedCursor.fromGraphql first last after before nested ≠
        .error .firstNonNegative ∧
      PaginatedCursor.fromGraphql first last after before nested ≠
        .error .lastNonNegative) ∧
    ((∃ c, PaginatedCursor.fromGraphql first last after before nested = .ok c) ∨
      PaginatedCursor.fromGraphql first last after before nested =
        .error .sameParameterSameTime ∨
      PaginatedCursor.fromGraphql first last after before nested =
        .error .firstAndBeforeSameTime ∨
      PaginatedCursor.fromGraphql first last after before nested =
        .error .lastAndAfterSameTime ∨
      PaginatedCursor.fromGraphql first last after before nested =
        .error .direction) := by
  cases first <;> cases last <;> cases after <;> cases before <;>
    simp [PaginatedCursor.fromGraphql]

end Grafbase

namespace Grafbase

/-- C4 (counterexample): the claim says that when the (limit+1)-th distinct
grouping key is encountered, "that entry's key is recorded as
last_evaluated_key". For a nested cursor (parent pk "p#1", limit 1) and two
rows keyed by their sort keys "t#a" and "t#b", the second distinct grouping
key is "t#b", yet the code records the row's partition key "p#1" (the
parent's id) as the continuation key (paginated.rs:360 stores
`pk.to_string()` while the grouping key is the sort key, line 350-354). -/
theorem queryNodeEdges_nested_records_pk :
    groupKey ⟨.forward none 1 (some ("rel", "p#1")), [], "t"⟩
        ⟨.nodeID "p" "1", .nodeID "t" "b", none⟩ = "t#b" ∧
    (queryNodeEdges ⟨.forward none 1 (some ("rel", "p#1")), [], "t"⟩
        [[⟨.nodeID "p" "1", .nodeID "t" "a", none⟩,
          ⟨.nodeID "p" "1", .nodeID "t" "b", none⟩]]).lastEvaluatedKey =
      some "p#1" ∧
    ("p#1" : String) ≠ "t#b" := by
  decide

/-- C4 (amended): for every completed `query_node_edges` call the returned
values map contains at most `limit` entries; whenever a continuation key is
recorded the caller receives exactly `limit` entries, none of which is
keyed by the recorded key (the (limit+1)-th entry is filtered out of the
returned values); when a (limit+1)-th distinct grouping key is encountered
during accumulation it is the row's partition key that is recorded as
`last_evaluated_key` — which coincides with that entry's grouping key for
non-nested queries, where the grouping key is the partition key. -/
theorem queryNodeEdges_limit_amended (ctx : QueryCtx) (pages : List (List Row)) :
    (queryNodeEdges ctx pages).values.length ≤ ctx.cursor.limit ∧
    (∀ k, (queryNodeEdges ctx pages).lastEvaluatedKey = some k →
      (queryNodeEdges ctx pages).values.length = ctx.cursor.limit ∧
      ∀ kv ∈ (queryNodeEdges ctx pages).values, kv.1 ≠ k) ∧
    (∀ (res : QueryResult) (row : Row),
      res.values.length = ctx.cursor.limit →
      List.lookup (groupKey ctx row) res.values = none →
      (processItem ctx ctx.cursor.limit res row).lastEvaluatedKey =
        some row.pk.toStr) ∧
    (ctx.cursor.nestedParentPk = none → ∀ row, groupKey ctx row = row.pk.toStr) := by
  obtain ⟨hnd, hd⟩ := queryNodeEdges_pageInv ctx pages
  refine ⟨?_, ?_, ?_, ?_⟩
  · rcases hd with ⟨_, hle⟩ | ⟨k, _, hklen, _⟩
    · exact hle
    · exact Nat.le_of_eq hklen
  · intro k hk
    rcases hd with ⟨hnone, _⟩ | ⟨k', hk', hklen, hkne⟩
    · rw [hnone] at hk
      exact absurd hk (by simp)
    · rw [hk'] at hk
      obtain rfl := Option.some.inj hk
      exact ⟨hklen, hkne⟩
  · intro res row h1 h2
    rw [processItem_over ctx ctx.cursor.limit res row h1 h2]
  · intro h row
    simp [groupKey, isTopLevelNested, h]

/-- Witness for `queryNodeEdges_limit_amended` at a concrete non-nested
forward cursor with limit 1 and a page of two distinct node rows. -/
theorem queryNodeEdges_limit_amended_witness :
    ((queryNodeEdges ⟨.forward none 1 none, [], "t"⟩
        [[⟨.nodeID "t" "a", .nodeID "t" "a", none⟩,
          ⟨.nodeID "t" "b", .nodeID "t" "b", none⟩]]).values.length = 1 ∧
      ∀ kv ∈ (queryNodeEdges ⟨.forward none 1 none, [], "t"⟩
        [[⟨.nodeID "t" "a", .nodeID "t" "a", none⟩,
          ⟨.nodeID "t" "b", .nodeID "t" "b", none⟩]]).values, kv.1 ≠ "t#b") ∧
    (processItem ⟨.forward none 1 none, [], "t"⟩ 1
        ⟨[("t#a", ⟨none, [], []⟩)], none⟩
        ⟨.nodeID "t" "b", .nodeID "t" "b", none⟩).lastEvaluatedKey =
      some "t#b" ∧
    groupKey ⟨.forward none 1 none, [], "t"⟩
        ⟨.nodeID "t" "b", .nodeID "t" "b", none⟩ =
      (GraphID.nodeID "t" "b").toStr := by
  refine ⟨?_, ?_, ?_⟩
  · exact (queryNodeEdges_limit_amended ⟨.forward none 1 none, [], "t"⟩
      [[⟨.nodeID "t" "a", .nodeID "t" "a", none⟩,
        ⟨.nodeID "t" "b", .nodeID "t" "b", none⟩]]).2.1 "t#b" (by decide)
  · exact (queryNodeEdges_limit_amended ⟨.forward none 1 none, [], "t"⟩ []).2.2.1
      ⟨[("t#a", ⟨none, [], []⟩)], none⟩
      ⟨.nodeID "t" "b", .nodeID "t" "b", none⟩ (by decide) (by decide)
  · exact (queryNodeEdges_limit_amended ⟨.forward none 1 none, [], "t"⟩ []).2.2.2
      rfl ⟨.nodeID "t" "b", .nodeID "t" "b", none⟩

end Grafbase

namespace Grafbase

/-! ### Lookup and insertion lemmas for the mutation engine -/

theorem lookup_append {β : Type} (k : String) (l m : List (String × β)) :
    List.lookup k (l ++ m) =
      match List.lookup k l with
      | some v => some v
      | none => List.lookup k m := by
  induction l with
  | nil => simp
  | cons a t ih =>
    obtain ⟨a1, a2⟩ := a
    by_cases h : k = a1
    · simp only [List.cons_append, List.lookup, beq_iff_eq.mpr h]
    · simp only [List.cons_append, List.lookup, beq_eq_false_iff_ne.mpr h]
      exact ih

theorem lookup_not_mem_keys {β : Type} (k : String) :
    ∀ (l : List (String × β)), k ∉ l.map Prod.fst → List.lookup k l = none := by
  intro l
  induction l with
  | nil => simp
  | cons a t ih =>
    obtain ⟨a1, a2⟩ := a
    intro h
    simp only [List.map_cons, List.mem_cons] at h
    push_neg at h
    simp only [List.lookup, beq_eq_false_iff_ne.mpr h.1, ih h.2]

theorem lookup_of_mem_nodup {β : Type} :
    ∀ (l : List (String × β)), (l.map Prod.fst).Nodup →
      ∀ kv ∈ l, List.lookup kv.1 l = some kv.2 := by
  intro l
  induction l with
  | nil => simp
  | cons a t ih =>
    intro hnd kv hkv
    rw [List.map_cons, List.nodup_cons] at hnd
    obtain ⟨a1, a2⟩ := a
    rcases List.mem_cons.mp hkv with rfl | hm
    · simp [List.lookup]
    · have hne : kv.1 ≠ a1 := by
        intro hc
        apply hnd.1
        show a1 ∈ List.map Prod.fst t
        rw [← hc]
        exact List.mem_map_of_mem Prod.fst hm
      simp only [List.lookup, beq_eq_false_iff_ne.mpr hne]
      exact ih hnd.2 kv hm

theorem eq_of_mem_same_key {β : Type} :
    ∀ (l : List (String × β)), (l.map Prod.fst).Nodup →
      ∀ kv kv', kv ∈ l → kv' ∈ l → kv.1 = kv'.1 → kv = kv' := by
  intro l
  induction l with
  | nil => simp
  | cons a t ih =>
    intro hnd kv kv' hkv hkv' hfst
    rw [List.map_cons, List.nodup_cons] at hnd
    rcases List.mem_cons.mp hkv with heq | hm
    · rcases List.mem_cons.mp hkv' with heq' | hm'
      · rw [heq, heq']
      · refine absurd ?_ hnd.1
        show a.1 ∈ List.map Prod.fst t
        rw [show a.1 = kv'.1 by rw [← heq]; exact hfst]
        exact List.mem_map_of_mem Prod.fst hm'
    · rcases List.mem_cons.mp hkv' with heq' | hm'
      · refine absurd ?_ hnd.1
        show a.1 ∈ List.map Prod.fst t
        rw [show a.1 = kv.1 by rw [← heq']; exact hfst.symm]
        exact List.mem_map_of_mem Prod.fst hm
      · exact ih hnd.2 kv kv' hm hm' hfst

theorem lookup_map_replace (l : List (String × AttrValue)) (k : String)
    (v : AttrValue) :
    List.lookup k (l.map (fun kv => if kv.1 = k then (k, v) else kv)) =
      (List.lookup k l).map (fun _ => v) := by
  induction l with
  | nil => simp
  | cons a t ih =>
    obtain ⟨a1, a2⟩ := a
    by_cases hk : a1 = k
    · subst hk
      rw [List.map_cons, if_pos (show (a1, a2).1 = a1 from rfl)]
      simp [List.lookup]
    · rw [List.map_cons, if_neg (show ¬ (a1, a2).1 = k by simpa using hk)]
      simp only [List.lookup, beq_eq_false_iff_ne.mpr (fun h => hk h.symm)]
      exact ih

theorem lookup_map_replace_ne (l : List (String × AttrValue)) (k k' : String)
    (v : AttrValue) (h : k' ≠ k) :
    List.lookup k' (l.map (fun kv => if kv.1 = k then (k, v) else kv)) =
      List.lookup k' l := by
  induction l with
  | nil => simp
  | cons a t ih =>
    obtain ⟨a1, a2⟩ := a
    by_cases hk : a1 = k
    · subst hk
      rw [List.map_cons, if_pos (show (a1, a2).1 = a1 from rfl)]
      simp only [List.lookup, beq_eq_false_iff_ne.mpr h]
      exact ih
    · rw [List.map_cons, if_neg (show ¬ (a1, a2).1 = k by simpa using hk)]
      by_cases hka : k' = a1
      · simp [List.lookup, beq_iff_eq.mpr hka]
      · simp only [List.lookup, beq_eq_false_iff_ne.mpr hka]
        exact ih

theorem lookup_insertAttr_self (l : List (String × AttrValue)) (k : String)
    (v : AttrValue) : List.lookup k (insertAttr l k v) = some v := by
  unfold insertAttr
  by_cases h : (List.lookup k l).isSome
  · rw [if_pos h, lookup_map_replace]
    obtain ⟨w, hw⟩ := Option.isSome_iff_exists.mp h
    rw [hw]
    rfl
  · rw [if_neg h, lookup_append]
    rw [Option.not_isSome_iff_eq_none] at h
    rw [h]
    simp [List.lookup]

theorem lookup_insertAttr_ne (l : List (String × AttrValue)) (k k' : String)
    (v : AttrValue) (h : k' ≠ k) :
    List.lookup k' (insertAttr l k v) = List.lookup k' l := by
  unfold insertAttr
  by_cases hs : (List.lookup k l).isSome
  · rw [if_pos hs, lookup_map_replace_ne _ _ _ _ h]
  · rw [if_neg hs, lookup_append]
    cases hl : List.lookup k' l with
    | some w => rfl
    | none => simp [List.lookup, beq_eq_false_iff_ne.mpr h]

theorem lookup_foldl_insertAttr (k : String) :
    ∀ (l acc : List (String × AttrValue)), (l.map Prod.fst).Nodup →
      List.lookup k (l.foldl (fun a kv => insertAttr a kv.1 kv.2) acc) =
        match List.lookup k l with
        | some v => some v
        | none => List.lookup k acc := by
  intro l
  induction l with
  | nil => intro acc _; simp
  | cons a t ih =>
    intro acc hnd
    rw [List.map_cons, List.nodup_cons] at hnd
    obtain ⟨a1, a2⟩ := a
    rw [List.foldl_cons, ih _ hnd.2]
    by_cases hk : k = a1
    · have ht : List.lookup k t = none :=
        lookup_not_mem_keys k t (by rw [hk]; exact hnd.1)
      rw [ht]
      simp only [List.lookup, beq_iff_eq.mpr hk]
      rw [hk]
      exact lookup_insertAttr_self acc a1 a2
    · simp only [List.lookup, beq_eq_false_iff_ne.mpr hk]
      cases hl : List.lookup k t with
      | some w => rfl
      | none => exact lookup_insertAttr_ne acc a1 k a2 hk

theorem lookup_foldl_insertAttr_map {γ : Type} (f : γ → AttrValue) (k : String) :
    ∀ (l : List (String × γ)) (acc : List (String × AttrValue)),
      (l.map Prod.fst).Nodup →
      List.lookup k (l.foldl (fun a kv => insertAttr a kv.1 (f kv.2)) acc) =
        match List.lookup k l with
        | some v => some (f v)
        | none => List.lookup k acc := by
  intro l
  induction l with
  | nil => intro acc _; simp
  | cons a t ih =>
    intro acc hnd
    rw [List.map_cons, List.nodup_cons] at hnd
    obtain ⟨a1, a2⟩ := a
    rw [List.foldl_cons, ih _ hnd.2]
    by_cases hk : k = a1
    · have ht : List.lookup k t = none :=
        lookup_not_mem_keys k t (by rw [hk]; exact hnd.1)
      rw [ht]
      simp only [List.lookup, beq_iff_eq.mpr hk]
      rw [hk]
      exact lookup_insertAttr_self acc a1 (f a2)
    · simp only [List.lookup, beq_eq_false_iff_ne.mpr hk]
      cases hl : List.lookup k t with
      | some w => rfl
      | none => exact lookup_insertAttr_ne acc a1 k (f a2) hk

end Grafbase

namespace Grafbase

/-- C6: for every CreateNode invocation the node row built for the Put
transaction contains every input field that is not a schema-declared
relation field as a plain attribute, and sets `__pk = __sk = id`,
`__type = ty`, `created_at = updated_at = now`, `__gsi1pk = ty`,
`__gsi1sk = id`, `__gsi2pk = __gsi2sk = id`; relation fields of the input
are not copied as attributes. Stated for inputs whose (GraphQL-unique)
field names avoid the nine engine-reserved attribute names, which GraphQL
reserves and the schema never exposes as input fields. -/
theorem buildNodeItem_spec (ty : MetaTypeM) (input : List (String × GValue))
    (id now : String)
    (hres : ∀ kv ∈ input, kv.1 ∉ reservedAttrs)
    (hnd : (input.map Prod.fst).Nodup) :
    (∀ kv ∈ input, (List.lookup kv.1 ty.relations).isNone →
      List.lookup kv.1 (buildNodeItem ty input id now) =
        some (value_to_attribute kv.2)) ∧
    (∀ kv ∈ input, (List.lookup kv.1 ty.relations).isSome →
      List.lookup kv.1 (buildNodeItem ty input id now) = none) ∧
    List.lookup "__pk" (buildNodeItem ty input id now) = some (.s id) ∧
    List.lookup "__sk" (buildNodeItem ty input id now) = some (.s id) ∧
    List.lookup "__type" (buildNodeItem ty input id now) = some (.s ty.name) ∧
    List.lookup "created_at" (buildNodeItem ty input id now) = some (.s now) ∧
    List.lookup "updated_at" (buildNodeItem ty input id now) = some (.s now) ∧
    List.lookup "__gsi1pk" (buildNodeItem ty input id now) = some (.s ty.name) ∧
    List.lookup "__gsi1sk" (buildNodeItem ty input id now) = some (.s id) ∧
    List.lookup "__gsi2pk" (buildNodeItem ty input id now) = some (.s id) ∧
    List.lookup "__gsi2sk" (buildNodeItem ty input id now) = some (.s id) := by
  have hsysfst : (systemAttrs ty.name id now).map Prod.fst = reservedAttrs := rfl
  have hsysnd : ((systemAttrs ty.name id now).map Prod.fst).Nodup := by
    rw [hsysfst]
    decide
  have hB : ∀ K, List.lookup K (buildNodeItem ty input id now) =
      match List.lookup K (systemAttrs ty.name id now) with
      | some v => some v
      | none =>
        List.lookup K
          ((input.filter
              (fun kv => (List.lookup kv.1 ty.relations).isNone)).foldl
            (fun acc kv => insertAttr acc kv.1 (value_to_attribute kv.2)) []) := by
    intro K
    unfold buildNodeItem
    exact lookup_foldl_insertAttr K _ _ hsysnd
  have hfilnd : ((input.filter
      (fun kv => (List.lookup kv.1 ty.relations).isNone)).map Prod.fst).Nodup :=
    hnd.sublist ((List.filter_sublist _).map Prod.fst)
  refine ⟨?_, ?_, ?_, ?_, ?_, ?_, ?_, ?_, ?_, ?_, ?_⟩
  · intro kv hkv hrel
    have hsysnone : List.lookup kv.1 (systemAttrs ty.name id now) = none :=
      lookup_not_mem_keys _ _ (by rw [hsysfst]; exact hres kv hkv)
    have hmem : kv ∈ input.filter
        (fun kv => (List.lookup kv.1 ty.relations).isNone) :=
      List.mem_filter.mpr ⟨hkv, hrel⟩
    rw [hB kv.1, hsysnone,
      lookup_foldl_insertAttr_map value_to_attribute kv.1 _ [] hfilnd,
      lookup_of_mem_nodup _ hfilnd kv hmem]
  · intro kv hkv hrel
    have hsysnone : List.lookup kv.1 (systemAttrs ty.name id now) = none :=
      lookup_not_mem_keys _ _ (by rw [hsysfst]; exact hres kv hkv)
    have hfilnone : List.lookup kv.1 (input.filter
        (fun kv => (List.lookup kv.1 ty.relations).isNone)) = none := by
      apply lookup_not_mem_keys
      intro hmemk
      obtain ⟨kv', hkv', hkey⟩ := List.mem_map.mp hmemk
      have hkv'in : kv' ∈ input := (List.mem_filter.mp hkv').1
      have hpred := (List.mem_filter.mp hkv').2
      have heq : kv' = kv := eq_of_mem_same_key input hnd kv' kv hkv'in hkv hkey
      rw [heq] at hpred
      rw [Option.isNone_iff_eq_none] at hpred
      rw [hpred] at hrel
      exact absurd hrel (by simp)
    rw [hB kv.1, hsysnone,
      lookup_foldl_insertAttr_map value_to_attribute kv.1 _ [] hfilnd, hfilnone]
    rfl
  · rw [hB "__pk"]; rfl
  · rw [hB "__sk"]; rfl
  · rw [hB "__type"]; rfl
  · rw [hB "created_at"]; rfl
  · rw [hB "updated_at"]; rfl
  · rw [hB "__gsi1pk"]; rfl
  · rw [hB "__gsi1sk"]; rfl
  · rw [hB "__gsi2pk"]; rfl
  · rw [hB "__gsi2sk"]; rfl

/-- Witness for `buildNodeItem_spec`: a Post type with one relation field
`author`, an input carrying one plain field and one relation field. -/
theorem buildNodeItem_spec_witness :
    List.lookup "title"
        (buildNodeItem ⟨"Post", [("author", "PostAuthor")], [("author", "Author")]⟩
          [("title", .string "T"), ("author", .object [("link", .string "x")])]
          "Post#1" "2023-01-01 00:00:00 UTC") =
      some (value_to_attribute (.string "T")) ∧
    List.lookup "author"
        (buildNodeItem ⟨"Post", [("author", "PostAuthor")], [("author", "Author")]⟩
          [("title", .string "T"), ("author", .object [("link", .string "x")])]
          "Post#1" "2023-01-01 00:00:00 UTC") = none ∧
    List.lookup "__pk"
        (buildNodeItem ⟨"Post", [("author", "PostAuthor")], [("author", "Author")]⟩
          [("title", .string "T"), ("author", .object [("link", .string "x")])]
          "Post#1" "2023-01-01 00:00:00 UTC") = some (.s "Post#1") := by
  have h := buildNodeItem_spec
    ⟨"Post", [("author", "PostAuthor")], [("author", "Author")]⟩
    [("title", .string "T"), ("author", .object [("link", .string "x")])]
    "Post#1" "2023-01-01 00:00:00 UTC"
    (by intro kv hkv
        rcases List.mem_cons.mp hkv with rfl | hkv
        · decide
        · rcases List.mem_cons.mp hkv with rfl | hkv
          · decide
          · cases hkv)
    (by decide)
  refine ⟨?_, ?_, h.2.2.1⟩
  · exact h.1 ("title", .string "T") (List.mem_cons.mpr (Or.inl rfl)) (by decide)
  · exact h.2.1 ("author", .object [("link", .string "x")])
      (List.mem_cons.mpr (Or.inr (List.mem_cons.mpr (Or.inl rfl)))) (by decide)

end Grafbase

namespace Grafbase

/-- C9: when the input of UpdateNode contains only relation fields and no
basic (non-relation) attributes, the update future submits zero Update
transaction items — neither the main row nor any duplicate edge row is
written — and `updated_at` is not refreshed in the in-memory projection,
so all existing attributes of every physical copy stay unchanged. -/
theorem nodeUpdate_relationsOnly_frame (ty : MetaTypeM)
    (input : List (String × GValue)) (id now : String)
    (reverseResult : Option QueryResult) (entity : List (String × AttrValue))
    (h : ∀ kv ∈ input, (List.lookup kv.1 ty.relations).isSome) :
    nodeUpdateTransactions ty input id now reverseResult = [] ∧
    nodeUpdateProjection ty input now entity = entity := by
  have hfilt : input.filter
      (fun kv => (List.lookup kv.1 ty.relations).isNone) = [] := by
    rw [List.filter_eq_nil_iff]
    intro kv hkv
    obtain ⟨w, hw⟩ := Option.isSome_iff_exists.mp (h kv hkv)
    simp [hw]
  constructor
  · unfold nodeUpdateTransactions
    rw [hfilt]
    rfl
  · unfold nodeUpdateProjection
    rw [hfilt]
    rfl

/-- Witness for `nodeUpdate_relationsOnly_frame`: an input holding only the
relation field `r`. -/
theorem nodeUpdate_relationsOnly_frame_witness :
    nodeUpdateTransactions ⟨"T", [("r", "TR")], [("r", "R")]⟩
        [("r", .object [("link", .string "x")])] "T#1" "2023" none = [] ∧
    nodeUpdateProjection ⟨"T", [("r", "TR")], [("r", "R")]⟩
        [("r", .object [("link", .string "x")])] "2023"
        [("a", .s "v"), ("updated_at", .s "2020")] =
      [("a", .s "v"), ("updated_at", .s "2020")] := by
  exact nodeUpdate_relationsOnly_frame ⟨"T", [("r", "TR")], [("r", "R")]⟩
    [("r", .object [("link", .string "x")])] "T#1" "2023" none
    [("a", .s "v"), ("updated_at", .s "2020")]
    (by intro kv hkv
        rcases List.mem_cons.mp hkv with rfl | hkv
        · decide
        · cases hkv)

/-- C5: when the two lookups of DeleteNode (id as partition key, id as sort
key) together yield zero rows, the resolver returns the error "This item
was not found, you can't delete an inexistant item." and submits no write
transaction to the store. -/
theorem deleteNode_zero_rows_error (itemsPk itemsSk : Option QueryResult)
    (h : ([itemsPk, itemsSk].flatMap Option.toList).flatMap allRowsFound = []) :
    deleteNodeResolve itemsPk itemsSk =
      .error "This item was not found, you can't delete an inexistant item." := by
  have hrows : deleteRowsFound itemsPk itemsSk = [] := by
    unfold deleteRowsFound
    apply List.flatMap_eq_nil_iff.mpr
    intro x hx
    have hx0 := List.flatMap_eq_nil_iff.mp h x hx
    unfold allRowsFound at hx0
    apply List.flatMap_eq_nil_iff.mpr
    intro kv hkv
    have hkv0 := List.flatMap_eq_nil_iff.mp hx0 kv hkv
    obtain ⟨hne, _⟩ := List.append_eq_nil.mp hkv0
    exact hne
  unfold deleteNodeResolve
  rw [hrows]
  rfl

/-- Witness for `deleteNode_zero_rows_error`: both lookups return nothing. -/
theorem deleteNode_zero_rows_error_witness :
    deleteNodeResolve none none =
      .error "This item was not found, you can't delete an inexistant item." :=
  deleteNode_zero_rows_error none none rfl

/-- C1 (counterexample): the claim says the Delete items cover "node rows,
edge rows, and constraint rows alike". With a lookup returning one entity
that carries a single constraint row, one row is found, yet the DeleteNode
arm builds zero Delete items (it only chains `y.node` and `y.edges`,
dynamo_mutation.rs:1107, dropping `y.constraints`) and even reports "not
found". -/
theorem deleteNode_constraint_row_dropped :
    (([some (⟨[("c", ⟨none, [],
          [⟨.constraintID "t" "name" "x", .constraintID "t" "name" "x", none⟩]⟩)],
        none⟩ : QueryResult), (none : Option QueryResult)].flatMap
        Option.toList).flatMap allRowsFound).length = 1 ∧
    deleteNodeResolve
        (some (⟨[("c", ⟨none, [],
          [⟨.constraintID "t" "name" "x", .constraintID "t" "name" "x", none⟩]⟩)],
        none⟩ : QueryResult)) none =
      .error "This item was not found, you can't delete an inexistant item." := by
  exact ⟨rfl, rfl⟩

/-- C1 (amended): for every DeleteNode execution that yields a transaction
batch, the batch contains exactly one Delete item per node row and per edge
row returned by the two lookups, each keyed by that row's own
`(__pk, __sk)`; constraint rows returned by the lookups are not covered. -/
theorem deleteNode_items_amended (itemsPk itemsSk : Option QueryResult)
    (items : List TxItem)
    (h : deleteNodeResolve itemsPk itemsSk = .ok items) :
    items.length =
      (([itemsPk, itemsSk].flatMap Option.toList).flatMap nodeAndEdgeRows).length ∧
    (∀ row ∈ ([itemsPk, itemsSk].flatMap Option.toList).flatMap nodeAndEdgeRows,
      mkDeleteTx row ∈ items) ∧
    (∀ item ∈ items,
      ∃ row ∈ ([itemsPk, itemsSk].flatMap Option.toList).flatMap nodeAndEdgeRows,
        item = mkDeleteTx row ∧
        item.op = .delete (row.pk.toStr, row.sk.toStr)) := by
  have hrows : deleteRowsFound itemsPk itemsSk =
      ([itemsPk, itemsSk].flatMap Option.toList).flatMap nodeAndEdgeRows := rfl
  have hitems : items = (deleteRowsFound itemsPk itemsSk).map mkDeleteTx := by
    unfold deleteNodeResolve at h
    by_cases hc : ((deleteRowsFound itemsPk itemsSk).map mkDeleteTx).isEmpty
    · rw [if_pos hc] at h
      cases h
    · rw [if_neg hc] at h
      exact (Except.ok.inj h).symm
  refine ⟨?_, ?_, ?_⟩
  · rw [hitems, hrows, List.length_map]
  · intro row hrow
    rw [hitems, hrows]
    exact List.mem_map_of_mem mkDeleteTx hrow
  · intro item hitem
    rw [hitems, hrows] at hitem
    obtain ⟨row, hrow, hEq⟩ := List.mem_map.mp hitem
    exact ⟨row, hrow, hEq.symm, by rw [← hEq]; rfl⟩

/-- Witness for `deleteNode_items_amended`: a lookup returning one entity
with a node row and one edge row. -/
theorem deleteNode_items_amended_witness :
    ((deleteRowsFound
        (some ⟨[("t#a", ⟨some ⟨.nodeID "t" "a", .nodeID "t" "a", none⟩,
          [("rel", [⟨.nodeID "t" "a", .nodeID "u" "b", some ["rel"]⟩])], []⟩)],
          none⟩) none).map mkDeleteTx).length =
      (([some (⟨[("t#a", ⟨some ⟨.nodeID "t" "a", .nodeID "t" "a", none⟩,
            [("rel", [⟨.nodeID "t" "a", .nodeID "u" "b", some ["rel"]⟩])], []⟩)],
          none⟩ : QueryResult), (none : Option QueryResult)].flatMap
          Option.toList).flatMap nodeAndEdgeRows).length := by
  exact (deleteNode_items_amended
    (some ⟨[("t#a", ⟨some ⟨.nodeID "t" "a", .nodeID "t" "a", none⟩,
      [("rel", [⟨.nodeID "t" "a", .nodeID "u" "b", some ["rel"]⟩])], []⟩)], none⟩)
    none _ rfl).1

/-- C2 (code evaluation at the failing input): the shared id counter is
created at zero (dynamo_mutation.rs:1041) and only ever read (`load`, line
217) — no call site increments it — so both nested sibling creates of type
Product inside one Category create are assigned the identical id
"Product#100" instead of distinct, monotonically ordered ids. -/
theorem nodeCreateIds_siblings_collide :
    nodeCreateIds
      [("Category", ⟨"Category", [("products", "CategoryProducts")],
          [("products", "Product")]⟩),
       ("Product", ⟨"Product", [], []⟩)]
      2 ⟨"Category", [("products", "CategoryProducts")], [("products", "Product")]⟩
      100 0
      [("name", .string "Tools"),
       ("products", .list
         [.object [("create", .object [("name", .string "Widget")])],
          .object [("create", .object [("name", .string "Gadget")])]])] =
      [some "Category#100", some "Product#100", some "Product#100"] ∧
    ¬ ([some "Category#100", some "Product#100",
        some "Product#100"] : List (Option String)).Nodup := by
  exact ⟨by decide, by decide⟩

end Grafbase

namespace Grafbase

/-- A binary search whose comparator never answers `eq` finds nothing. -/
theorem binarySearchGo_none {α : Type} (xs : List α) (f : α → Ordering)
    (h : ∀ x ∈ xs, f x ≠ .eq) :
    ∀ (fuel left right : Nat), binarySearchGo xs f fuel left right = none := by
  intro fuel
  induction fuel with
  | zero => intro left right; rfl
  | succ n ih =>
    intro left right
    unfold binarySearchGo
    by_cases hlr : left < right
    · rw [if_pos hlr]
      cases hget : xs.get? (left + (right - left) / 2) with
      | none => rfl
      | some x =>
        have hx := h x (List.get?_mem hget)
        cases hfx : f x with
        | lt => simp only [hfx]; exact ih _ _
        | gt => simp only [hfx]; exact ih _ _
        | eq => exact absurd hfx hx
    · rw [if_neg hlr]

/-- Specialization to the whole slice. -/
theorem binarySearchBy_none {α : Type} (xs : List α) (f : α → Ordering)
    (h : ∀ x ∈ xs, f x ≠ .eq) : binarySearchBy xs f = none :=
  binarySearchGo_none xs f h _ _ _

/-- C7 (counterexample): the claim says the equality "returns false on
every tag mismatch and on every arity mismatch", and maps compare by key
lookup. An operation-side map over an empty range compares equal to a
schema-side map with one entry: the map arm only checks the
operation-side entries against the schema side, so a map arity mismatch is
not detected (query/mod.rs:231-247 has no length check, unlike the
input-object and list arms). -/
theorem qsEq_map_arity_mismatch :
    qsEq ⟨[], [], []⟩ ⟨[], [], [(0, .int 1)], ["a"]⟩ 5
        (.map ⟨0, 0⟩) (.map ⟨0, 1⟩) = true ∧
    (sliceRange (⟨[], [], []⟩ : QueryInputValues).keyValues ⟨0, 0⟩).length = 0 ∧
    (sliceRange (⟨[], [], [(0, .int 1)], ["a"]⟩ :
        SchemaInputValues).keyValues ⟨0, 1⟩).length = 1 := by
  exact ⟨by decide, rfl, rfl⟩

/-- C7 (amended): the structural equality returns false on every tag
mismatch; input objects require equal field counts and match each
operation-side field by binary search in the id-sorted schema-side field
array; lists require equal lengths and compare elementwise; scalars
compare by value; maps compare each operation-side entry by
binary-searching the schema-side keys — an operation-side key the
comparator never matches makes the result false, while schema-side-only
keys are not examined, so a map whose operation side is a strict subset of
the schema side can compare equal. -/
theorem qsEq_amended (op : QueryInputValues) (sch : SchemaInputValues)
    (fuel : Nat) :
    (∀ (l : QueryInputValue) (r : SchemaInputValue) (t : Nat),
      qTag l = some t → sTag r ≠ t → qsEq op sch (fuel + 1) l r = false) ∧
    (∀ lids rids,
      (sliceRange op.inputFields lids).length ≠
          (sliceRange sch.inputFields rids).length →
      qsEq op sch (fuel + 1) (.inputObject lids) (.inputObject rids) = false) ∧
    (∀ lids rids,
      (sliceRange op.values lids).length ≠
          (sliceRange sch.values rids).length →
      qsEq op sch (fuel + 1) (.list lids) (.list rids) = false) ∧
    (∀ a b, qsEq op sch (fuel + 1) (.int a) (.int b) = (a == b)) ∧
    (∀ a b, qsEq op sch (fuel + 1) (.bigInt a) (.bigInt b) = (a == b)) ∧
    (∀ a b, qsEq op sch (fuel + 1) (.u64 a) (.u64 b) = (a == b)) ∧
    (∀ a b, qsEq op sch (fuel + 1) (.boolean a) (.boolean b) = (a == b)) ∧
    (∀ a b, qsEq op sch (fuel + 1) (.enumValue a) (.enumValue b) = (a == b)) ∧
    (∀ s rid s2, sch.strings.get? rid = some s2 →
      qsEq op sch (fuel + 1) (.string s) (.string rid) = (s == s2)) ∧
    (∀ lids rids kv, kv ∈ sliceRange op.keyValues lids →
      (∀ probe ∈ sliceRange sch.keyValues rids,
        compare (sch.strings.getD probe.1 "") kv.1 ≠ .eq) →
      qsEq op sch (fuel + 1) (.map lids) (.map rids) = false) := by
  refine ⟨?_, ?_, ?_, ?_, ?_, ?_, ?_, ?_, ?_, ?_⟩
  · intro l r t hl hr
    cases l <;> cases r <;> simp_all [qsEq, qTag, sTag]
  · intro lids rids hlen
    simp [qsEq, hlen]
  · intro lids rids hlen
    simp [qsEq, hlen]
  · intro a b; simp [qsEq]
  · intro a b; simp [qsEq]
  · intro a b; simp [qsEq]
  · intro a b; simp [qsEq]
  · intro a b; simp [qsEq]
  · intro s rid s2 hs
    rw [List.get?_eq_getElem?] at hs
    simp [qsEq, hs]
  · intro lids rids kv hkv hnone
    have hsearch : binarySearchBy (sliceRange sch.keyValues rids)
        (fun probe => compare (sch.strings.getD probe.1 "") kv.1) = none :=
      binarySearchBy_none _ _ (fun probe hp => hnone probe hp)
    show (sliceRange op.keyValues lids).all _ = false
    apply List.all_eq_false.mpr
    refine ⟨kv, hkv, ?_⟩
    rw [hsearch]
    simp

/-- Witness for `qsEq_amended` on concrete arenas: a tag mismatch, an
input-object arity mismatch, a list arity mismatch, an integer scalar, an
interned string, and a map whose operation-side key is missing from the
schema side. -/
theorem qsEq_amended_witness :
    qsEq ⟨[], [], []⟩ ⟨[], [], [], []⟩ 3 .null (.int 0) = false ∧
    qsEq ⟨[], [(5, .int 1)], []⟩ ⟨[], [], [], []⟩ 3
      (.inputObject ⟨0, 1⟩) (.inputObject ⟨0, 0⟩) = false ∧
    qsEq ⟨[.int 1], [], []⟩ ⟨[], [], [], []⟩ 3
      (.list ⟨0, 1⟩) (.list ⟨0, 0⟩) = false ∧
    qsEq ⟨[], [], []⟩ ⟨[], [], [], []⟩ 3 (.int 4) (.int 4) = true ∧
    qsEq ⟨[], [], []⟩ ⟨[], [], [], ["hello"]⟩ 3
      (.string "hello") (.string 0) = true ∧
    qsEq ⟨[], [], [("b", .int 1)]⟩ ⟨[], [], [(0, .int 1)], ["a"]⟩ 3
      (.map ⟨0, 1⟩) (.map ⟨0, 1⟩) = false := by
  have h0 := qsEq_amended ⟨[], [], []⟩ ⟨[], [], [], []⟩ 2
  have h1 := qsEq_amended ⟨[], [(5, .int 1)], []⟩ ⟨[], [], [], []⟩ 2
  have h2 := qsEq_amended ⟨[.int 1], [], []⟩ ⟨[], [], [], []⟩ 2
  have h3 := qsEq_amended ⟨[], [], []⟩ ⟨[], [], [], ["hello"]⟩ 2
  have h4 := qsEq_amended ⟨[], [], [("b", .int 1)]⟩ ⟨[], [], [(0, .int 1)], ["a"]⟩ 2
  refine ⟨h0.1 .null (.int 0) 0 (by decide) (by decide), ?_, ?_, ?_, ?_, ?_⟩
  · exact h1.2.1 ⟨0, 1⟩ ⟨0, 0⟩ (by decide)
  · exact h2.2.2.1 ⟨0, 1⟩ ⟨0, 0⟩ (by decide)
  · have := h0.2.2.2.1 4 4
    rw [this]
    decide
  · have := h3.2.2.2.2.2.2.2.2.1 "hello" 0 "hello" (by decide)
    rw [this]
    decide
  · exact h4.2.2.2.2.2.2.2.2.2 ⟨0, 1⟩ ⟨0, 1⟩ ("b", .int 1) (by decide)
      (by decide)

end Grafbase

namespace Grafbase

/-! ### Dedup-map lemmas for C8 -/

theorem lookupField_none_not_mem (f : RequiredField) :
    ∀ (s : List (RequiredField × Nat)), lookupField s f = none →
      ∀ e ∈ s, e.1 ≠ f := by
  intro s
  induction s with
  | nil => simp
  | cons a t ih =>
    obtain ⟨g, i⟩ := a
    intro h e he
    unfold lookupField at h
    by_cases hg : g = f
    · rw [if_pos hg] at h
      cases h
    · rw [if_neg hg] at h
      rcases List.mem_cons.mp he with rfl | hm
      · exact hg
      · exact ih h e hm

theorem lookupField_some_mem (f : RequiredField) :
    ∀ (s : List (RequiredField × Nat)) (i : Nat), lookupField s f = some i →
      (f, i) ∈ s := by
  intro s
  induction s with
  | nil => intro i h; cases h
  | cons a t ih =>
    obtain ⟨g, j⟩ := a
    intro i h
    unfold lookupField at h
    by_cases hg : g = f
    · rw [if_pos hg] at h
      obtain rfl := Option.some.inj h
      rw [hg]
      exact List.mem_cons.mpr (Or.inl rfl)
    · rw [if_neg hg] at h
      exact List.mem_cons.mpr (Or.inr (ih i h))

theorem get?_of_mem_wf (s : List (RequiredField × Nat))
    (hwf : FieldStateWF s) (f : RequiredField) (i : Nat)
    (hmem : (f, i) ∈ s) : s.get? i = some (f, i) := by
  obtain ⟨p, hp⟩ := List.mem_iff_get?.mp hmem
  have hplen : p < s.length := by
    by_contra hpl
    rw [List.get?_eq_none.mpr (Nat.le_of_not_lt hpl)] at hp
    cases hp
  have hsnd : (s.map Prod.snd).get? p = some i := by
    rw [List.get?_map, hp]
    rfl
  rw [hwf.1] at hsnd
  rw [List.get?_range (by simpa using hplen)] at hsnd
  obtain rfl := Option.some.inj hsnd
  exact hp

theorem orInsertField_wf (s : List (RequiredField × Nat)) (f : RequiredField)
    (hwf : FieldStateWF s) :
    FieldStateWF (orInsertField s f).2 ∧
    (orInsertField s f).2.get? (orInsertField s f).1 =
      some (f, (orInsertField s f).1) ∧
    (∀ n e, s.get? n = some e → (orInsertField s f).2.get? n = some e) := by
  unfold orInsertField
  cases hl : lookupField s f with
  | some i =>
    exact ⟨hwf, get?_of_mem_wf s hwf f i (lookupField_some_mem f s i hl),
      fun n e he => he⟩
  | none =>
    refine ⟨⟨?_, ?_⟩, ?_, ?_⟩
    · rw [List.map_append, hwf.1, List.length_append]
      simp [List.range_succ]
    · rw [List.map_append]
      rw [List.nodup_append]
      refine ⟨hwf.2, List.nodup_singleton _, ?_⟩
      intro x hx hxmem
      simp only [List.map_cons, List.map_nil, List.mem_singleton] at hxmem
      obtain ⟨e, he, hee⟩ := List.mem_map.mp hx
      exact lookupField_none_not_mem f s hl e he (by rw [hee, hxmem])
    · exact List.get?_concat_length s (f, s.length)
    · intro n e he
      have hn : n < s.length := by
        by_contra hnl
        rw [List.get?_eq_none.mpr (Nat.le_of_not_lt hnl)] at he
        cases he
      rw [List.get?_append hn]
      exact he

end Grafbase

namespace Grafbase

theorem assignIds_entries :
    ∀ (fs : List RequiredField) (s : List (RequiredField × Nat)),
      FieldStateWF s →
      FieldStateWF (assignIds s fs).2 ∧
      (assignIds s fs).1.length = fs.length ∧
      (∀ n e, s.get? n = some e → (assignIds s fs).2.get? n = some e) ∧
      (∀ k f, fs.get? k = some f →
        ∃ i, (assignIds s fs).1.get? k = some i ∧
          (assignIds s fs).2.get? i = some (f, i)) := by
  intro fs
  induction fs with
  | nil =>
    intro s hwf
    refine ⟨hwf, rfl, fun n e he => he, ?_⟩
    intro k f hk
    cases hk
  | cons f rest ih =>
    intro s hwf
    obtain ⟨hwf1, hget1, hext1⟩ := orInsertField_wf s f hwf
    obtain ⟨hwfF, hlen, hextF, hentry⟩ := ih (orInsertField s f).2 hwf1
    refine ⟨hwfF, by simp only [assignIds, List.length_cons, hlen], ?_, ?_⟩
    · intro n e he
      exact hextF n e (hext1 n e he)
    · intro k g hk
      cases k with
      | zero =>
        have hgf : f = g := by simpa using hk
        refine ⟨(orInsertField s f).1, rfl, ?_⟩
        rw [← hgf]
        exact hextF _ _ hget1
      | succ k =>
        exact hentry k g (by simpa using hk)

theorem nodup_get?_same {α : Type} (l : List α) (hnd : l.Nodup) (i j : Nat)
    (a : α) (hi : l.get? i = some a) (hj : l.get? j = some a) : i = j := by
  have hilen : i < l.length := by
    by_contra hc
    rw [List.get?_eq_none.mpr (Nat.le_of_not_lt hc)] at hi
    cases hi
  exact List.get?_inj hilen hnd (by rw [hi, hj])

/-- The id each occurrence receives from the dedup map determines and is
determined by the structural field: positions in the processed sequence
carry equal ids exactly when they carry equal fields. -/
theorem assignIds_id_iff (fs : List RequiredField) (i j : Nat) :
    (assignIds [] fs).1.get? i = (assignIds [] fs).1.get? j ↔
      fs.get? i = fs.get? j := by
  obtain ⟨hwfF, hlen, _, hentry⟩ :=
    assignIds_entries fs [] ⟨rfl, List.nodup_nil⟩
  constructor
  · intro h
    cases hfi : fs.get? i with
    | none =>
      have hilen : fs.length ≤ i := List.get?_eq_none.mp hfi
      have hidsi : (assignIds [] fs).1.get? i = none :=
        List.get?_eq_none.mpr (by rw [hlen]; exact hilen)
      rw [hidsi] at h
      have hjlen : fs.length ≤ j := by
        rw [← hlen]
        exact List.get?_eq_none.mp h.symm
      rw [List.get?_eq_none.mpr hjlen]
    | some f =>
      obtain ⟨idi, hidi, hfin_i⟩ := hentry i f hfi
      cases hfj : fs.get? j with
      | none =>
        have hjlen : fs.length ≤ j := List.get?_eq_none.mp hfj
        have hidsj : (assignIds [] fs).1.get? j = none :=
          List.get?_eq_none.mpr (by rw [hlen]; exact hjlen)
        rw [hidsj, hidi] at h
        cases h
      | some g =>
        obtain ⟨idj, hidj, hfin_j⟩ := hentry j g hfj
        rw [hidi, hidj] at h
        obtain rfl := Option.some.inj h
        rw [hfin_i] at hfin_j
        obtain hfg := Option.some.inj hfin_j
        rw [((Prod.mk.injEq _ _ _ _).mp hfg).1]
  · intro h
    cases hfi : fs.get? i with
    | none =>
      have hilen : fs.length ≤ i := List.get?_eq_none.mp hfi
      have hj : fs.get? j = none := by rw [← h]; exact hfi
      have hjlen : fs.length ≤ j := List.get?_eq_none.mp hj
      rw [List.get?_eq_none.mpr (show (assignIds [] fs).1.length ≤ i by
          rw [hlen]; exact hilen),
        List.get?_eq_none.mpr (show (assignIds [] fs).1.length ≤ j by
          rw [hlen]; exact hjlen)]
    | some f =>
      have hfj : fs.get? j = some f := by rw [← h]; exact hfi
      obtain ⟨idi, hidi, hfin_i⟩ := hentry i f hfi
      obtain ⟨idj, hidj, hfin_j⟩ := hentry j f hfj
      have hfsts : ((assignIds [] fs).2.map Prod.fst).get? idi = some f := by
        rw [List.get?_map, hfin_i]
        rfl
      have hfsts2 : ((assignIds [] fs).2.map Prod.fst).get? idj = some f := by
        rw [List.get?_map, hfin_j]
        rfl
      obtain rfl := nodup_get?_same _ hwfF.2 idi idj f hfsts hfsts2
      rw [hidi, hidj]

end Grafbase

namespace Grafbase

mutual

theorem convertItem_wf (ctx : BuildCtxM) :
    ∀ (item : FieldSetItemM) (s s' : List (RequiredField × Nat))
      (out : Option RequiredFieldSetItem),
      FieldStateWF s → convertItem ctx s item = .ok (s', out) →
      FieldStateWF s'
  | .mk field args sub, s, s', out, hwf, h => by
    unfold convertItem at h
    cases hf : List.lookup field ctx.fieldIdMap with
    | none =>
      simp only [hf] at h
      obtain ⟨h1, _⟩ := Prod.mk.injEq .. |>.mp (Except.ok.inj h)
      rw [← h1]
      exact hwf
    | some definitionId =>
      simp only [hf] at h
      cases hb : buildArguments ctx
          ((List.lookup definitionId ctx.argumentIds).getD [])
          (resolveFedArgs ctx args) with
      | error e =>
        rw [hb] at h
        exact Except.noConfusion h
      | ok arguments =>
        rw [hb] at h
        cases hc : convertSet ctx
            (orInsertField s ⟨definitionId, arguments⟩).2 sub with
        | error e =>
          simp only [hc] at h
          exact Except.noConfusion h
        | ok p =>
          obtain ⟨s2, items⟩ := p
          simp only [hc] at h
          obtain ⟨h1, _⟩ := Prod.mk.injEq .. |>.mp (Except.ok.inj h)
          rw [← h1]
          exact convertSet_wf ctx sub _ s2 items
            (orInsertField_wf s ⟨definitionId, arguments⟩ hwf).1 hc

theorem convertSet_wf (ctx : BuildCtxM) :
    ∀ (items : List FieldSetItemM) (s s' : List (RequiredField × Nat))
      (out : List RequiredFieldSetItem),
      FieldStateWF s → convertSet ctx s items = .ok (s', out) →
      FieldStateWF s'
  | [], s, s', out, hwf, h => by
    unfold convertSet at h
    obtain ⟨h1, _⟩ := Prod.mk.injEq .. |>.mp (Except.ok.inj h)
    rw [← h1]
    exact hwf
  | item :: rest, s, s', out, hwf, h => by
    unfold convertSet at h
    cases hi : convertItem ctx s item with
    | error e =>
      simp only [hi] at h
      exact Except.noConfusion h
    | ok p =>
      obtain ⟨s1, out1⟩ := p
      have hwf1 : FieldStateWF s1 :=
        convertItem_wf ctx item s s1 out1 hwf hi
      cases out1 with
      | none =>
        simp only [hi] at h
        exact convertSet_wf ctx rest s1 s' out hwf1 h
      | some it =>
        simp only [hi] at h
        cases hr : convertSet ctx s1 rest with
        | error e =>
          simp only [hr] at h
          exact Except.noConfusion h
        | ok q =>
          obtain ⟨s2, items⟩ := q
          simp only [hr] at h
          obtain ⟨h1, _⟩ := Prod.mk.injEq .. |>.mp (Except.ok.inj h)
          rw [← h1]
          exact convertSet_wf ctx rest s1 s2 items hwf1 hr

end

end Grafbase

namespace Grafbase

theorem convertAll_wf (ctx : BuildCtxM) :
    ∀ (buffer : List (List FieldSetItemM))
      (s s' : List (RequiredField × Nat))
      (sets : List (List RequiredFieldSetItem)),
      FieldStateWF s → convertAll ctx s buffer = .ok (s', sets) →
      FieldStateWF s' := by
  intro buffer
  induction buffer with
  | nil =>
    intro s s' sets hwf h
    unfold convertAll at h
    obtain ⟨h1, _⟩ := Prod.mk.injEq .. |>.mp (Except.ok.inj h)
    rw [← h1]
    exact hwf
  | cons fs rest ih =>
    intro s s' sets hwf h
    unfold convertAll at h
    cases hc : convertSet ctx s fs with
    | error e =>
      simp only [hc] at h
      exact Except.noConfusion h
    | ok p =>
      obtain ⟨s1, set1⟩ := p
      simp only [hc] at h
      cases hr : convertAll ctx s1 rest with
      | error e =>
        simp only [hr] at h
        exact Except.noConfusion h
      | ok q =>
        obtain ⟨s2, sets2⟩ := q
        simp only [hr] at h
        obtain ⟨h1, _⟩ := Prod.mk.injEq .. |>.mp (Except.ok.inj h)
        rw [← h1]
        exact ih s1 s2 sets2 (convertSet_wf ctx fs s s1 set1 hwf hc) hr

theorem convertItem_mints_id (ctx : BuildCtxM) (s : List (RequiredField × Nat))
    (field : Nat) (args : List (Nat × Nat)) (sub : List FieldSetItemM)
    (s' : List (RequiredField × Nat)) (it : RequiredFieldSetItem)
    (h : convertItem ctx s (.mk field args sub) = .ok (s', some it)) :
    ∃ definitionId arguments subItems,
      List.lookup field ctx.fieldIdMap = some definitionId ∧
      buildArguments ctx ((List.lookup definitionId ctx.argumentIds).getD [])
        (resolveFedArgs ctx args) = .ok arguments ∧
      it = .mk (orInsertField s ⟨definitionId, arguments⟩).1 subItems ∧
      convertSet ctx (orInsertField s ⟨definitionId, arguments⟩).2 sub =
        .ok (s', subItems) := by
  unfold convertItem at h
  cases hf : List.lookup field ctx.fieldIdMap with
  | none =>
    simp only [hf] at h
    obtain ⟨_, h2⟩ := Prod.mk.injEq .. |>.mp (Except.ok.inj h)
    exact Option.noConfusion h2
  | some definitionId =>
    simp only [hf] at h
    cases hb : buildArguments ctx
        ((List.lookup definitionId ctx.argumentIds).getD [])
        (resolveFedArgs ctx args) with
    | error e =>
      rw [hb] at h
      exact Except.noConfusion h
    | ok arguments =>
      rw [hb] at h
      cases hc : convertSet ctx
          (orInsertField s ⟨definitionId, arguments⟩).2 sub with
      | error e =>
        simp only [hc] at h
        exact Except.noConfusion h
      | ok p =>
        obtain ⟨s2, items⟩ := p
        simp only [hc] at h
        obtain ⟨h1, h2⟩ := Prod.mk.injEq .. |>.mp (Except.ok.inj h)
        refine ⟨definitionId, arguments, items, rfl, hb, ?_, ?_⟩
        · rw [← Option.some.inj h2]
        · rw [hc, h1]

theorem tryInsertInto_table (ctx : BuildCtxM)
    (buffer : List (List FieldSetItemM)) (table : List RequiredField)
    (sets : List (List RequiredFieldSetItem))
    (h : tryInsertInto ctx buffer = .ok (table, sets)) :
    ∃ s, convertAll ctx [] buffer = .ok (s, sets) ∧
      table = s.map Prod.fst ∧ s.map Prod.snd = List.range s.length ∧
      table.Nodup := by
  unfold tryInsertInto at h
  cases hca : convertAll ctx [] buffer with
  | error e =>
    rw [hca] at h
    exact Except.noConfusion h
  | ok p =>
    obtain ⟨s, sets0⟩ := p
    simp only [hca] at h
    have hwfs : FieldStateWF s :=
      convertAll_wf ctx buffer [] s sets0 ⟨rfl, List.nodup_nil⟩ hca
    have hpw : (s.map Prod.snd).Pairwise (· ≤ ·) := by
      rw [hwfs.1]
      exact List.pairwise_le_range s.length
    have hsorted : s.Pairwise (fun a b => ((a.2 ≤ b.2 : Bool) : Prop)) :=
      (List.pairwise_map.mp hpw).imp (fun hab => by simpa using hab)
    rw [List.mergeSort_of_sorted hsorted] at h
    obtain ⟨h1, h2⟩ := Prod.mk.injEq .. |>.mp (Except.ok.inj h)
    subst h2
    refine ⟨s, rfl, h1.symm, hwfs.1, ?_⟩
    have hnd : (s.map Prod.fst).Nodup := hwfs.2
    rw [← h1]
    exact hnd

end Grafbase

namespace Grafbase

/-- C8: during `RequiredFieldSetBuffer::try_insert_into`, any two
field-set items (across all buffered field sets) that resolve to the same
field definition id with structurally identical coerced argument lists are
assigned the same `RequiredFieldId` — the id minted at the first
occurrence — while items differing in definition or arguments receive
distinct ids; the resulting `required_fields` table contains the
deduplicated fields ordered by their ids. Formally: (1) every converted
item's id is the one handed out by the dedup map (`orInsertField`) for its
structural `RequiredField`; (2) the dedup map assigns two processed
occurrences the same id exactly when their structural fields are equal
(the first occurrence minting the id); (3) on success `required_fields` is
the dedup map's field list whose entry k carries id k — ordered by id and
duplicate-free. -/
theorem requiredFields_dedup (ctx : BuildCtxM) :
    (∀ s field args sub s' it,
      convertItem ctx s (.mk field args sub) = .ok (s', some it) →
      ∃ definitionId arguments subItems,
        List.lookup field ctx.fieldIdMap = some definitionId ∧
        buildArguments ctx
            ((List.lookup definitionId ctx.argumentIds).getD [])
            (resolveFedArgs ctx args) = .ok arguments ∧
        it = .mk (orInsertField s ⟨definitionId, arguments⟩).1 subItems) ∧
    (∀ fs i j,
      (assignIds [] fs).1.get? i = (assignIds [] fs).1.get? j ↔
        fs.get? i = fs.get? j) ∧
    (∀ buffer table sets, tryInsertInto ctx buffer = .ok (table, sets) →
      ∃ s, convertAll ctx [] buffer = .ok (s, sets) ∧
        table = s.map Prod.fst ∧ s.map Prod.snd = List.range s.length ∧
        table.Nodup) := by
  refine ⟨?_, ?_, ?_⟩
  · intro s field args sub s' it h
    obtain ⟨d, a, si, h1, h2, h3, _⟩ :=
      convertItem_mints_id ctx s field args sub s' it h
    exact ⟨d, a, si, h1, h2, h3⟩
  · intro fs i j
    exact assignIds_id_iff fs i j
  · intro buffer table sets h
    exact tryInsertInto_table ctx buffer table sets h

/-- Witness for `requiredFields_dedup`: a context with one resolvable
field (federated id 1, definition id 10, no arguments); the dedup-engine
part instantiated on a three-occurrence sequence whose first and third
fields coincide. -/
theorem requiredFields_dedup_witness :
    (∃ definitionId arguments subItems,
      List.lookup 1 (⟨[(1, 10)], [], [(10, [])], [], [], [], [],
          fun _ v => v⟩ : BuildCtxM).fieldIdMap = some definitionId ∧
      buildArguments ⟨[(1, 10)], [], [(10, [])], [], [], [], [],
          fun _ v => v⟩
          ((List.lookup definitionId (⟨[(1, 10)], [], [(10, [])], [], [], [],
            [], fun _ v => v⟩ : BuildCtxM).argumentIds).getD [])
          (resolveFedArgs ⟨[(1, 10)], [], [(10, [])], [], [], [], [],
            fun _ v => v⟩ []) = .ok arguments ∧
      RequiredFieldSetItem.mk 0 [] =
        .mk (orInsertField [] ⟨definitionId, arguments⟩).1 subItems) ∧
    ((assignIds [] [⟨10, [(1, 2)]⟩, ⟨11, []⟩, ⟨10, [(1, 2)]⟩]).1.get? 0 =
        (assignIds [] [⟨10, [(1, 2)]⟩, ⟨11, []⟩, ⟨10, [(1, 2)]⟩]).1.get? 2 ↔
      ([⟨10, [(1, 2)]⟩, ⟨11, []⟩,
        (⟨10, [(1, 2)]⟩ : RequiredField)] : List RequiredField).get? 0 =
        [⟨10, [(1, 2)]⟩, ⟨11, []⟩,
          (⟨10, [(1, 2)]⟩ : RequiredField)].get? 2) ∧
    (∃ s, convertAll ⟨[(1, 10)], [], [(10, [])], [], [], [], [],
          fun _ v => v⟩ [] [[.mk 1 [] []]] = .ok (s, [[.mk 0 []]]) ∧
      [(⟨10, []⟩ : RequiredField)] = s.map Prod.fst ∧
      s.map Prod.snd = List.range s.length ∧
      [(⟨10, []⟩ : RequiredField)].Nodup) := by
  have h := requiredFields_dedup
    ⟨[(1, 10)], [], [(10, [])], [], [], [], [], fun _ v => v⟩
  refine ⟨?_, h.2.1 [⟨10, [(1, 2)]⟩, ⟨11, []⟩, ⟨10, [(1, 2)]⟩] 0 2, ?_⟩
  · exact h.1 [] 1 [] [] [(⟨10, []⟩, 0)] (.mk 0 []) rfl
  · refine h.2.2 [[.mk 1 [] []]] [⟨10, []⟩] [[.mk 0 []]] ?_
    have hca : convertAll
        (⟨[(1, 10)], [], [(10, [])], [], [], [], [], fun _ v => v⟩ : BuildCtxM)
        [] [[.mk 1 [] []]] = .ok ([(⟨10, []⟩, 0)], [[.mk 0 []]]) := rfl
    unfold tryInsertInto
    simp only [hca]
    rw [List.mergeSort_singleton]
    rfl

end Grafbase
